import Mathlib

/-!
Verification development for the Orbit profiler sources.

The definitions below are a shallow embedding of:
  * `TimerBlock` / `TimerChain` (`ClientData/TimerChain.h`),
  * `capture_deserializer::Load`, `internal::ReadMessage` and
    `internal::LoadCaptureInfo` (`OrbitClientModel/CaptureDeserializer.cpp`),
  * `Capture::StartCapture`, `Capture::StopCapture` and
    `Capture::ClearCaptureData` (`Capture.cpp`).

C++ machine integers (`uint64_t`, `uint32_t`) are modelled by `Nat`; the
only place where the width matters is the initialisation of a block's
minimum timestamp with `std::numeric_limits<uint64_t>::max()`, which is
kept explicitly as `uint64Max`.  A `CHECK(...)` macro (fatal assertion)
is modelled by returning `none` from an `Option`-valued function, so a
`some` result certifies that no assertion fired.
-/

namespace Orbit

/-! ## TimerBlock and TimerChain (ClientData/TimerChain.h) -/

/-- Block capacity, `TimerBlock::kBlockSize = 1024`. -/
def kBlockSize : Nat := 1024

/-- `std::numeric_limits<uint64_t>::max()`. -/
def uint64Max : Nat := 2 ^ 64 - 1

/-- The part of `orbit_client_protos::TimerInfo` used by `TimerChain`:
`start()` and the end timestamp (`end()` in the protobuf; `end` is a
keyword in Lean, hence `end_`). -/
structure TimerInfo where
  start : Nat
  end_ : Nat
deriving DecidableEq

/-- `ClientData/TextBox.h` is not among the sources; per the spec a
stored element just carries its `TimerInfo` (`GetTimerInfo()`), which is
all `TimerChain.h` reads from it. -/
structure TextBox where
  timerInfo : TimerInfo
deriving DecidableEq

/-- The data of one `TimerBlock`: the stored elements plus
`min_timestamp_` / `max_timestamp_` (the `prev_`/`next_` links live in
`TimerBlockNode` below, where the chain owns them). -/
structure TimerBlock where
  data : List TextBox
  minTimestamp : Nat
  maxTimestamp : Nat
deriving DecidableEq

/-- `TimerBlock::TimerBlock`: empty data, `min_timestamp_ = uint64 max`,
`max_timestamp_ = uint64 min = 0`. -/
def TimerBlock.new : TimerBlock :=
  { data := [], minTimestamp := uint64Max, maxTimestamp := 0 }

/-- `TimerBlock::size()`. -/
def TimerBlock.size (b : TimerBlock) : Nat := b.data.length

/-- `TimerBlock::at_capacity()`. -/
def TimerBlock.atCapacity (b : TimerBlock) : Bool := b.size == kBlockSize

/-- `TimerBlock::emplace_back`: `CHECK(size() < kBlockSize)` (modelled by
the `none` branch), append the element, then fold its start/end
timestamps into `min_timestamp_` / `max_timestamp_`. -/
def TimerBlock.emplaceBack (b : TimerBlock) (t : TextBox) : Option TimerBlock :=
  if b.size < kBlockSize then
    some { data := b.data ++ [t],
           minTimestamp := Nat.min t.timerInfo.start b.minTimestamp,
           maxTimestamp := Nat.max t.timerInfo.end_ b.maxTimestamp }
  else none

/-- A sequence of `TimerBlock::emplace_back` calls on one block. -/
def TimerBlock.emplaceAll (b : TimerBlock) : List TextBox → Option TimerBlock
  | [] => some b
  | t :: ts =>
    match b.emplaceBack t with
    | none => none
    | some b2 => b2.emplaceAll ts

/-- Modelled from the spec: the body of `TimerBlock::Intersects` is not
among the sources (only its declaration and descriptive comment are).
Per that comment it "tests if [min, max] intersects with
[min_timestamp, max_timestamp]", i.e. it is the interval-overlap test of
the query window against the block's timestamp envelope. -/
def TimerBlock.Intersects (b : TimerBlock) (tmin tmax : Nat) : Bool :=
  decide (tmin ≤ b.maxTimestamp) && decide (b.minTimestamp ≤ tmax)

/-- A timer's `[start, end]` interval overlaps the query window
`[a, b]`. -/
def overlaps (t : TimerInfo) (a b : Nat) : Prop :=
  t.start ≤ b ∧ a ≤ t.end_

instance (t : TimerInfo) (a b : Nat) : Decidable (overlaps t a b) := by
  unfold overlaps; infer_instance

/-- A heap cell of the block chain: one `TimerBlock` plus its `prev_` and
`next_` links.  Raw pointers are shallowly embedded as indices into the
chain's allocation list (`none` = `nullptr`). -/
structure TimerBlockNode where
  prev : Option Nat
  next : Option Nat
  block : TimerBlock
deriving DecidableEq

/-- `TimerChain`: the allocated blocks (in allocation order; `root_` and
`current_` are indices into this list), `num_blocks_` and `num_items_`. -/
structure TimerChain where
  nodes : List TimerBlockNode
  root : Nat
  current : Nat
  numBlocks : Nat
  numItems : Nat
deriving DecidableEq

/-- The fresh chain: `root_ = new TimerBlock(nullptr)`,
`current_ = root_`, `num_blocks_ = 1`, `num_items_ = 0`. -/
def TimerChain.new : TimerChain :=
  { nodes := [{ prev := none, next := none, block := TimerBlock.new }],
    root := 0, current := 0, numBlocks := 1, numItems := 0 }

/-- `TimerChain::AllocateNewBlock`: `CHECK(current_->next_ == nullptr)`,
link a fresh block after the current one and make it current. -/
def TimerChain.allocateNewBlock (c : TimerChain) : Option TimerChain :=
  match c.nodes.get? c.current with
  | none => none
  | some cur =>
    if cur.next = none then
      some { nodes := c.nodes.set c.current { cur with next := some c.nodes.length }
                        ++ [{ prev := some c.current, next := none, block := TimerBlock.new }],
             root := c.root, current := c.nodes.length,
             numBlocks := c.numBlocks + 1, numItems := c.numItems }
    else none

/-- `TimerChain::emplace_back`: if the current block is at capacity,
allocate a new one; then `current_->emplace_back(...)` and
`++num_items_`. -/
def TimerChain.emplaceBack (c : TimerChain) (t : TextBox) : Option TimerChain :=
  match c.nodes.get? c.current with
  | none => none
  | some cur0 =>
    match (if cur0.block.atCapacity then c.allocateNewBlock else some c) with
    | none => none
    | some c1 =>
      match c1.nodes.get? c1.current with
      | none => none
      | some cur =>
        match cur.block.emplaceBack t with
        | none => none
        | some b =>
          some { c1 with nodes := c1.nodes.set c1.current { cur with block := b },
                         numItems := c1.numItems + 1 }

/-- A sequence of `TimerChain::emplace_back` calls. -/
def TimerChain.emplaceAll (c : TimerChain) : List TextBox → Option TimerChain
  | [] => some c
  | t :: ts =>
    match c.emplaceBack t with
    | none => none
    | some c2 => c2.emplaceAll ts

/-! ## Capture deserializer (OrbitClientModel/CaptureDeserializer.cpp)

The byte stream handed to `CodedInputStream` is a `List Nat` of bytes.
Protobuf decoding (`ParseFromArray`) is third-party library behaviour;
`internal::ReadMessage` ignores its return value, so only the raw
payload bytes matter for control flow and they are carried through
opaquely.  Where `Load` reads a decoded field (`header.version()`, the
`CaptureInfo` fields) the decoders are passed in as parameters
(`versionOf`, `captureInfoOf`). -/

/-- `CodedInputStream::ReadLittleEndian32`: consume 4 bytes, little
endian; fail if fewer than 4 bytes remain. -/
def readLittleEndian32 : List Nat → Option (Nat × List Nat)
  | b0 :: b1 :: b2 :: b3 :: rest =>
    some (b0 + 2 ^ 8 * b1 + 2 ^ 16 * b2 + 2 ^ 24 * b3, rest)
  | _ => none

/-- `internal::ReadMessage`: read a 4-byte little-endian length, then
that many raw payload bytes (`ReadRaw` fails if fewer remain).  The
result of `message->ParseFromArray(...)` is ignored by the source, so
the payload is returned as-is. -/
def readMessage (input : List Nat) : Option (List Nat × List Nat) :=
  match readLittleEndian32 input with
  | none => none
  | some (size, rest) =>
    if size ≤ rest.length then some (rest.take size, rest.drop size) else none

theorem readMessage_rest_lt {input payload rest : List Nat}
    (h : readMessage input = some (payload, rest)) : rest.length < input.length := by
  match input with
  | b0 :: b1 :: b2 :: b3 :: tl =>
    simp only [readMessage, readLittleEndian32] at h
    split at h
    · simp only [Option.some.injEq, Prod.mk.injEq] at h
      obtain ⟨-, h2⟩ := h
      subst h2
      simp only [List.length_cons, List.length_drop]
      omega
    · exact absurd h (by simp)
  | [] => simp [readMessage, readLittleEndian32] at h
  | [b0] => simp [readMessage, readLittleEndian32] at h
  | [b0, b1] => simp [readMessage, readLittleEndian32] at h
  | [b0, b1, b2] => simp [readMessage, readLittleEndian32] at h

/-- Fuel-indexed helper for `messages`: each `ReadMessage` consumes at
least 4 bytes, so fuel `bytes.length + 1` never runs out (kept
structurally recursive so that concrete streams evaluate). -/
def messagesF : Nat → List Nat → List (List Nat)
  | 0, _ => []
  | fuel + 1, bytes =>
    match readMessage bytes with
    | none => []
    | some (payload, rest) => payload :: messagesF fuel rest

/-- The sequence of length-prefixed message payloads of a byte stream
(what successive `ReadMessage` calls yield until the first failure). -/
def messages (bytes : List Nat) : List (List Nat) :=
  messagesF (bytes.length + 1) bytes

/-- The listener callbacks of the `CaptureListener` interface, in the
shape `LoadCaptureInfo` invokes them.  Payloads that never influence
control flow are carried as opaque values. -/
inductive Callback where
  | onCaptureStarted
  | onAddressInfo (info : Nat)
  | onThreadName (tid : Nat) (name : String)
  | onThreadStateSlice (slice : Nat)
  | onUniqueCallStack (cs : List Nat)
  | onCallstackEvent (e : Nat)
  | onUniqueTracepointInfo (key : Nat)
  | onTracepointEvent (e : Nat)
  | onKeyAndString (key : Nat) (str : String)
  | onTimer (payload : List Nat)
  | onCaptureComplete
  | onCaptureCancelled
  | onCaptureFailed (msg : String)
deriving DecidableEq

/-- The fields of the decoded `CaptureInfo` protobuf that
`LoadCaptureInfo` iterates over.  Element payloads are opaque; for a
`selected_function` only `loaded_module_path()` matters (it feeds the
`CHECK` against the module map), and for a module only `file_path()`. -/
structure CaptureInfo where
  processPid : Nat
  modulePaths : List String
  selectedFunctionModulePaths : List String
  addressInfos : List Nat
  threadNames : List (Nat × String)
  threadStateSlices : List Nat
  callstacks : List (List Nat)
  callstackEvents : List Nat
  tracepointInfos : List (Nat × String × String)
  tracepointEventInfos : List Nat
  keyToStrings : List (Nat × String)
deriving DecidableEq

/-- The `CHECK(module_it != module_map.end())` in the selected-function
loop: every selected function's `loaded_module_path()` must be a key of
the module map built from `capture_info.modules()`. -/
def modulesOk (ci : CaptureInfo) : Bool :=
  ci.selectedFunctionModulePaths.all (fun p => ci.modulePaths.contains p)

/-- The per-element callbacks of the eight `for` loops of
`LoadCaptureInfo`, in source order (address infos, thread names, thread
state slices, unique callstacks, callstack events, unique tracepoint
infos, tracepoint events, key-to-string pairs).  Each loop checks the
cancellation flag once per element and then delivers exactly one
callback, so the eight loops together behave as one delivery loop over
this concatenation. -/
def eventCallbacks (ci : CaptureInfo) : List Callback :=
  ci.addressInfos.map Callback.onAddressInfo
    ++ ci.threadNames.map (fun p => Callback.onThreadName p.1 p.2)
    ++ ci.threadStateSlices.map Callback.onThreadStateSlice
    ++ ci.callstacks.map Callback.onUniqueCallStack
    ++ ci.callstackEvents.map Callback.onCallstackEvent
    ++ ci.tracepointInfos.map (fun p => Callback.onUniqueTracepointInfo p.1)
    ++ ci.tracepointEventInfos.map Callback.onTracepointEvent
    ++ ci.keyToStrings.map (fun p => Callback.onKeyAndString p.1 p.2)

/-- One check-then-deliver loop: before each element the cancellation
flag is read (reads are numbered by `n`); a positive read emits
`OnCaptureCancelled` and stops.  Returns the emitted callbacks, the next
read index, and whether cancellation fired. -/
def deliverLoop (items : List Callback) (flag : Nat → Bool) (n : Nat) :
    List Callback × Nat × Bool :=
  match items with
  | [] => ([], n, false)
  | x :: xs =>
    if flag n then ([Callback.onCaptureCancelled], n + 1, true)
    else
      let r := deliverLoop xs flag (n + 1)
      (x :: r.1, r.2.1, r.2.2)

/-- Fuel-indexed helper for `timerLoop` (see `messagesF` for the fuel
convention). -/
def timerLoopF (flag : Nat → Bool) : Nat → List Nat → Nat → List Callback
  | 0, _, _ => []
  | fuel + 1, bytes, n =>
    match readMessage bytes with
    | none => [Callback.onCaptureComplete]
    | some (payload, rest) =>
      if flag n then [Callback.onCaptureCancelled]
      else Callback.onTimer payload :: timerLoopF flag fuel rest (n + 1)

/-- The timer loop of `LoadCaptureInfo`: `while (ReadMessage(...))`
(note the read happens before the cancellation check — one message of
read-ahead), delivering `OnTimer` per message; when `ReadMessage` fails
(end of stream or short payload) the loop ends with
`OnCaptureComplete`. -/
def timerLoop (bytes : List Nat) (flag : Nat → Bool) (n : Nat) : List Callback :=
  timerLoopF flag (bytes.length + 1) bytes n

/-- `internal::LoadCaptureInfo`.  The cancellation flag is an atomic
boolean written by another thread; its successive reads are modelled by
`flag : Nat → Bool` (the value returned by the `n`-th read).  Reads
happen: after the process info is built, after the module list is
built, after the selected functions (whose loop carries the module-map
`CHECK`, modelled by the `none` branch) and tracepoints are built, then
once per delivered element, and once per timer message after it has
been read.  `none` models a fatal `CHECK` failure. -/
def loadCaptureInfo (ci : CaptureInfo) (bytes : List Nat) (flag : Nat → Bool) :
    Option (List Callback) :=
  if flag 0 then some [Callback.onCaptureCancelled]
  else if flag 1 then some [Callback.onCaptureCancelled]
  else if modulesOk ci then
    if flag 2 then some [Callback.onCaptureCancelled]
    else
      some (Callback.onCaptureStarted ::
        (let r := deliverLoop (eventCallbacks ci) flag 3
         if r.2.2 then r.1 else r.1 ++ timerLoop bytes flag r.2.1))
  else none

/-- The generic decode-failure message built at the top of `Load`
(used when the header or the metadata message cannot be read, or the
header's version is empty). -/
def parseErrorMessage (fileName : String) : String :=
  "Error parsing the capture from \"" ++ fileName ++
    "\".\nNote: If the capture was taken with a previous Orbit version, " ++
    "it could be incompatible. Please check release notes for more information."

/-- The version-mismatch message of `Load` (built from the file name and
the file's `header.version()` only). -/
def incompatibleVersionMessage (fileName version : String) : String :=
  "The format of capture \"" ++ fileName ++
    "\" is no longer supported but could be opened with Orbit version " ++
    version ++ "."

/-- `capture_deserializer::Load` (stream overload).
`required` models `internal::kRequiredCaptureVersion` (declared in
`CaptureDeserializer.h`, which is not among the sources; per the spec it
is the single supported version string).  `versionOf` decodes
`header.version()` from the header payload, `captureInfoOf` decodes the
metadata payload (protobuf decoding, external to the sources). -/
def load (required : String) (versionOf : List Nat → String)
    (captureInfoOf : List Nat → CaptureInfo) (fileName : String)
    (bytes : List Nat) (flag : Nat → Bool) : Option (List Callback) :=
  match readMessage bytes with
  | none => some [Callback.onCaptureFailed (parseErrorMessage fileName)]
  | some (payload, rest) =>
    if versionOf payload = "" then
      some [Callback.onCaptureFailed (parseErrorMessage fileName)]
    else if versionOf payload ≠ required then
      some [Callback.onCaptureFailed
        (incompatibleVersionMessage fileName (versionOf payload))]
    else
      match readMessage rest with
      | none => some [Callback.onCaptureFailed (parseErrorMessage fileName)]
      | some (payload2, rest2) =>
        loadCaptureInfo (captureInfoOf payload2) rest2 flag

/-- A cooperative cancellation flag that is clear for the first `t`
reads and set from read `t` on (the flag is set once, between the
`t-1`-st and the `t`-th read, and never cleared). -/
def flagFrom (t : Nat) : Nat → Bool := fun i => decide (t ≤ i)

/-- Total number of cancellation-flag reads `LoadCaptureInfo` performs
when it is never cancelled. -/
def totalChecks (ci : CaptureInfo) (bytes : List Nat) : Nat :=
  3 + (eventCallbacks ci).length + (messages bytes).length

/-- Terminal status callbacks (exactly one of these ends every load). -/
def Callback.isTerminal : Callback → Bool
  | .onCaptureComplete => true
  | .onCaptureCancelled => true
  | .onCaptureFailed _ => true
  | _ => false

/-- Number of non-terminal (data-delivering) callbacks of a trace. -/
def eventCount (tr : List Callback) : Nat :=
  (tr.filter (fun c => !c.isTerminal)).length

/-! ## Capture session orchestration (Capture.cpp)

The process-wide static state of `Capture` is gathered into one
`CaptureState` record.  The embedding follows the non-Windows (`#ifdef`
excluded) build: `IsTrackingEvents()` is `!IsRemote()`, the
Windows-only `Connect`/`GEventTracer` branches are absent, and the
Windows/Unreal-specific parts of `PreFunctionHooks` (OutputDebugString
hook, Unreal support) are modelled as inactive.  External collaborators
(`GTcpServer->ResetStats()`, `GOrbitUnreal.NewSession()`, the
`GClearCaptureDataFunc` UI callback, `func->ResetStats()`,
`FindCoreFunctions`) mutate no `Capture` state modelled here.
`GTimerManager`, `GTcpServer` and (when remote) `GTcpClient` are the
process-lifetime globals and are modelled as present. -/

/-- The wire messages `StartCapture` / `StopCapture` emit, plus the
per-hook-kind messages of `SendFunctionHooks` (carrying the
`Function::OrbitType` index they batch). -/
inductive Msg where
  | newSession
  | clearArgTracking
  | remoteSelectedFunctionsMap
  | startCaptureMsg
  | stopCaptureMsg
  | functionHookOfType (orbitType : Nat)
deriving DecidableEq

/-- The part of a `Function` that `StartCapture`/`SendFunctionHooks`
reads: virtual address, selection flags and `Function::OrbitType`
(an index `< Function::NUM_TYPES = 10`). -/
structure FunctionEntry where
  address : Nat
  selected : Bool
  isOrbitFunc : Bool
  orbitType : Nat
deriving DecidableEq

/-- Insert-or-replace on an association list (`std::map`-style
`m[key] = value`). -/
def alInsert {α : Type} (m : List (Nat × α)) (k : Nat) (v : α) : List (Nat × α) :=
  match m with
  | [] => [(k, v)]
  | (k0, v0) :: rest =>
    if k0 = k then (k, v) :: rest else (k0, v0) :: alInsert rest k v

/-- The `Capture` static state touched by
`StartCapture`/`StopCapture`/`ClearCaptureData`, plus the observable
wire (`sent`) and UI (`uiSent`) message traces. -/
structure CaptureState where
  targetProcessName : String
  targetProcessIsRemote : Bool
  targetProcessId : Nat
  targetFunctions : List FunctionEntry
  injected : Bool
  sessionId : Nat
  isRecording : Bool
  captureTimerStarted : Bool
  functionCountMap : List (Nat × Nat)
  callstacks : List (Nat × List Nat)
  addressInfos : List (Nat × Nat)
  addressToFunctionName : List (Nat × String)
  zoneNames : List (Nat × String)
  selectedTextBox : Option Nat
  selectedThreadId : Nat
  numProfileEvents : Nat
  hasContextSwitches : Bool
  numLinuxEvents : Nat
  numContextSwitches : Nat
  selectedFunctions : List FunctionEntry
  selectedFunctionsMap : List (Nat × FunctionEntry)
  visibleFunctionsMap : List (Nat × FunctionEntry)
  selectedAddressesByType : List (List Nat)
  profilerIsCapturing : Bool
  profilerProcessedRuns : Nat
  sent : List Msg
  uiSent : List String
deriving DecidableEq

/-- `Capture::IsRemote()`: the target process exists and is remote. -/
def isRemote (st : CaptureState) : Bool := st.targetProcessIsRemote

/-- `Capture::IsTrackingEvents()` on the non-Windows build:
`!IsRemote()`. -/
def isTrackingEvents (st : CaptureState) : Bool := !isRemote st

/-- `Capture::IsCapturing()`: `GTimerManager && GTimerManager->m_IsRecording`. -/
def isCapturing (st : CaptureState) : Bool := st.isRecording

/-- `Capture::ClearCaptureData`: clear the interning/bookkeeping tables
and zero the per-session counters.  (`GTcpServer->ResetStats()` and
`GOrbitUnreal.NewSession()` touch external collaborators only.) -/
def clearCaptureData (st : CaptureState) : CaptureState :=
  { st with functionCountMap := [], callstacks := [], addressInfos := [],
            addressToFunctionName := [], zoneNames := [],
            selectedTextBox := none, selectedThreadId := 0,
            numProfileEvents := 0, hasContextSwitches := false,
            numLinuxEvents := 0, numContextSwitches := 0 }

/-- Push `v` onto the `i`-th bucket of `GSelectedAddressesByType`. -/
def pushAt (buckets : List (List Nat)) (i : Nat) (v : Nat) : List (List Nat) :=
  buckets.set i ((buckets.getD i []) ++ [v])

/-- `Capture::GetSelectedFunctions()`: the target process's functions
with `IsSelected() || IsOrbitFunc()`. -/
def getSelectedFunctions (st : CaptureState) : List FunctionEntry :=
  st.targetFunctions.filter (fun f => f.selected || f.isOrbitFunc)

/-- One iteration of the selected-function loop of `SendFunctionHooks`:
record the function's address in its per-type bucket, in
`GSelectedFunctionsMap`, and with count 0 in `GFunctionCountMap`
(`func->ResetStats()` touches only the function's own stats). -/
def recordFunctionHook (s : CaptureState) (f : FunctionEntry) : CaptureState :=
  { s with selectedAddressesByType := pushAt s.selectedAddressesByType f.orbitType f.address,
           selectedFunctionsMap := alInsert s.selectedFunctionsMap f.address f,
           functionCountMap := alInsert s.functionCountMap f.address 0 }

/-- The final loop of `SendFunctionHooks`: one hook message per
non-empty per-type address bucket. -/
def sendHookMessages (st : CaptureState) : CaptureState :=
  (List.range 10).foldl (fun s i =>
    if s.selectedAddressesByType.getD i [] ≠ [] then
      { s with sent := s.sent ++ [Msg.functionHookOfType i] }
    else s) st

/-- `Capture::SendFunctionHooks` (non-Windows, Unreal inactive):
`PreFunctionHooks` clears the per-type address buckets and sends
`Msg_ClearArgTracking`; then each selected function is recorded in the
per-type buckets, `GSelectedFunctionsMap` and (with count 0)
`GFunctionCountMap`; `GVisibleFunctionsMap` is the selected map; on a
remote target the selection and a start command are sent to the client;
finally one hook message per non-empty type bucket is sent. -/
def sendFunctionHooks (st : CaptureState) : CaptureState :=
  let st := { st with selectedAddressesByType := List.replicate 10 [],
                      sent := st.sent ++ [Msg.clearArgTracking] }
  let sel := getSelectedFunctions st
  let st := { st with selectedFunctions := sel }
  let st := sel.foldl recordFunctionHook st
  let st := { st with visibleFunctionsMap := st.selectedFunctionsMap }
  let st :=
    if isRemote st then
      { st with sent := st.sent ++ [Msg.remoteSelectedFunctionsMap, Msg.startCaptureMsg] }
    else st
  sendHookMessages st

/-- The tail of `StartCapture` after the hooks are sent: on a remote
target restart the sampling profiler, then notify the UI
(`"startcapture"`, and `"gotolive"` when functions are selected). -/
def finishStartCapture (st : CaptureState) : CaptureState :=
  let st :=
    if isTrackingEvents st then st
    else if isRemote st then
      { st with profilerIsCapturing := true }
    else st
  let st := { st with uiSent := st.uiSent ++ ["startcapture"] }
  if st.selectedFunctionsMap.isEmpty then st
  else { st with uiSent := st.uiSent ++ ["gotolive"] }

/-- `Capture::StartCapture` (non-Windows build): fail early on an empty
target-process name; otherwise start the capture timer, mark injected,
increment the session id, send `Msg_NewSession`, start recording, clear
the capture data, send the function hooks, and finish (profiler + UI
notifications). -/
def startCapture (st : CaptureState) : Except String Unit × CaptureState :=
  if st.targetProcessName = "" then
    (Except.error "No process selected. Please choose a target process for the capture.", st)
  else
    let st := { st with captureTimerStarted := true }
    let st := { st with injected := true, sessionId := st.sessionId + 1,
                        sent := st.sent ++ [Msg.newSession], isRecording := true }
    let st := clearCaptureData st
    let st := sendFunctionHooks st
    (Except.ok (), finishStartCapture st)

/-- `Capture::StopCapture`: on a remote target stop the sampling
profiler and process its samples; then, unless `GInjected` is clear,
send `Msg_StopCapture` through the main TCP entity and stop the timer
manager's recording. -/
def stopCapture (st : CaptureState) : CaptureState :=
  let st :=
    if isTrackingEvents st then st
    else if isRemote st then
      { st with profilerIsCapturing := false,
                profilerProcessedRuns := st.profilerProcessedRuns + 1 }
    else st
  if !st.injected then st
  else
    let st := { st with sent := st.sent ++ [Msg.stopCaptureMsg] }
    { st with isRecording := false }

/-! ## Verification-layer definitions -/

/-- Number of blocks a chain holds after `k` appends (derived closed
form: one initial block, plus one per completed multiple of
`kBlockSize`). -/
def blocksOf (k : Nat) : Nat := if k = 0 then 1 else (k - 1) / kBlockSize + 1

/-- Size of the current (last) block after `k` appends. -/
def lastSizeOf (k : Nat) : Nat := if k = 0 then 0 else (k - 1) % kBlockSize + 1

/-- A `CaptureInfo` with no modules, functions or events (what an empty
metadata payload decodes to); used for concrete test streams. -/
def emptyCaptureInfo : CaptureInfo :=
  { processPid := 0, modulePaths := [], selectedFunctionModulePaths := [],
    addressInfos := [], threadNames := [], threadStateSlices := [],
    callstacks := [], callstackEvents := [], tracepointInfos := [],
    tracepointEventInfos := [], keyToStrings := [] }

/-- A concrete header decoder for test streams: the version string is
the payload bytes read as characters. -/
def bytesAsString (payload : List Nat) : String :=
  String.mk (payload.map Char.ofNat)

/-- A concrete quiescent `Capture` state (fresh process-wide statics)
used for witnesses and counterexamples. -/
def initialCaptureState : CaptureState :=
  { targetProcessName := "", targetProcessIsRemote := false, targetProcessId := 0,
    targetFunctions := [], injected := false, sessionId := 0, isRecording := false,
    captureTimerStarted := false, functionCountMap := [], callstacks := [],
    addressInfos := [], addressToFunctionName := [], zoneNames := [],
    selectedTextBox := none, selectedThreadId := 0, numProfileEvents := 0,
    hasContextSwitches := false, numLinuxEvents := 0, numContextSwitches := 0,
    selectedFunctions := [], selectedFunctionsMap := [], visibleFunctionsMap := [],
    selectedAddressesByType := List.replicate 10 [], profilerIsCapturing := false,
    profilerProcessedRuns := 0, sent := [], uiSent := [] }

/-- The structural invariant of a `TimerChain` after `k` successful
`emplace_back` calls: `current_` is the last allocated block, the
`next_`/`prev_` links list the blocks in allocation order, every block
before the current one is exactly at capacity, and the bookkeeping
counters agree. -/
structure ChainShape (k : Nat) (c : TimerChain) : Prop where
  nodesLen : c.nodes.length = blocksOf k
  currentIs : c.current = c.nodes.length - 1
  numBlocksIs : c.numBlocks = c.nodes.length
  rootIs : c.root = 0
  numItemsIs : c.numItems = k
  nextLinks : ∀ i nd, c.nodes[i]? = some nd →
      nd.next = if i + 1 < c.nodes.length then some (i + 1) else none
  prevLinks : ∀ i nd, c.nodes[i]? = some nd →
      nd.prev = if i = 0 then none else some (i - 1)
  fullButLast : ∀ i nd, c.nodes[i]? = some nd → i + 1 < c.nodes.length →
      nd.block.size = kBlockSize
  lastBlockSize : ∀ nd, c.nodes[c.nodes.length - 1]? = some nd →
      nd.block.size = lastSizeOf k

/-! ## Lemmas about `TimerBlock` -/

theorem TimerBlock.emplaceAll_spec (ts : List TextBox) (b : TimerBlock)
    (h : b.size + ts.length ≤ kBlockSize) :
    ∃ b2, b.emplaceAll ts = some b2 ∧
      b2.data = b.data ++ ts ∧
      b2.minTimestamp =
        (ts.map fun t => t.timerInfo.start).foldl (fun a s => Nat.min s a) b.minTimestamp ∧
      b2.maxTimestamp =
        (ts.map fun t => t.timerInfo.end_).foldl (fun a e => Nat.max e a) b.maxTimestamp := by
  induction ts generalizing b with
  | nil =>
    exact ⟨b, rfl, by simp, rfl, rfl⟩
  | cons t ts ih =>
    have hlt : b.size < kBlockSize := by
      simp only [List.length_cons] at h; omega
    have hstep : b.emplaceBack t =
        some { data := b.data ++ [t],
               minTimestamp := Nat.min t.timerInfo.start b.minTimestamp,
               maxTimestamp := Nat.max t.timerInfo.end_ b.maxTimestamp } := by
      simp [TimerBlock.emplaceBack, hlt]
    have hsz : ({ data := b.data ++ [t],
                  minTimestamp := Nat.min t.timerInfo.start b.minTimestamp,
                  maxTimestamp := Nat.max t.timerInfo.end_ b.maxTimestamp } : TimerBlock).size
        + ts.length ≤ kBlockSize := by
      simp only [TimerBlock.size, List.length_append, List.length_cons,
        List.length_nil] at h ⊢
      omega
    obtain ⟨b2, h1, h2, h3, h4⟩ := ih _ hsz
    refine ⟨b2, ?_, ?_, ?_, ?_⟩
    · simp only [TimerBlock.emplaceAll, hstep]; exact h1
    · rw [h2]; simp
    · rw [h3]; simp
    · rw [h4]; simp

theorem foldlMin_le_init (l : List Nat) (init : Nat) :
    l.foldl (fun a s => Nat.min s a) init ≤ init := by
  induction l generalizing init with
  | nil => exact Nat.le_refl _
  | cons y ys ih =>
    rw [List.foldl_cons]
    exact Nat.le_trans (ih _) (Nat.min_le_right _ _)

theorem foldlMin_le {l : List Nat} {init x : Nat} (hx : x ∈ l) :
    l.foldl (fun a s => Nat.min s a) init ≤ x := by
  induction l generalizing init with
  | nil => cases hx
  | cons y ys ih =>
    rw [List.foldl_cons]
    rcases List.mem_cons.mp hx with rfl | hx
    · exact Nat.le_trans (foldlMin_le_init _ _) (Nat.min_le_left _ _)
    · exact ih hx

theorem foldlMin_mem (l : List Nat) (init : Nat) :
    l.foldl (fun a s => Nat.min s a) init = init ∨
      l.foldl (fun a s => Nat.min s a) init ∈ l := by
  induction l generalizing init with
  | nil => exact Or.inl rfl
  | cons y ys ih =>
    rw [List.foldl_cons]
    rcases ih (Nat.min y init) with h | h
    · rcases Nat.le_total y init with hyi | hyi
      · right
        have hfold : ys.foldl (fun a s => Nat.min s a) (Nat.min y init) = y :=
          h.trans (Nat.min_eq_left hyi)
        rw [hfold]
        exact List.mem_cons_self _ _
      · left
        exact h.trans (Nat.min_eq_right hyi)
    · exact Or.inr (List.mem_cons_of_mem _ h)

theorem foldlMax_init_le (l : List Nat) (init : Nat) :
    init ≤ l.foldl (fun a e => Nat.max e a) init := by
  induction l generalizing init with
  | nil => exact Nat.le_refl _
  | cons y ys ih =>
    rw [List.foldl_cons]
    exact Nat.le_trans (Nat.le_max_right _ _) (ih _)

theorem foldlMax_ge {l : List Nat} {init x : Nat} (hx : x ∈ l) :
    x ≤ l.foldl (fun a e => Nat.max e a) init := by
  induction l generalizing init with
  | nil => cases hx
  | cons y ys ih =>
    rw [List.foldl_cons]
    rcases List.mem_cons.mp hx with rfl | hx
    · exact Nat.le_trans (Nat.le_max_left _ _) (foldlMax_init_le _ _)
    · exact ih hx

theorem foldlMax_mem (l : List Nat) (init : Nat) :
    l.foldl (fun a e => Nat.max e a) init = init ∨
      l.foldl (fun a e => Nat.max e a) init ∈ l := by
  induction l generalizing init with
  | nil => exact Or.inl rfl
  | cons y ys ih =>
    rw [List.foldl_cons]
    rcases ih (Nat.max y init) with h | h
    · rcases Nat.le_total y init with hyi | hyi
      · left
        exact h.trans (Nat.max_eq_right hyi)
      · right
        have hfold : ys.foldl (fun a e => Nat.max e a) (Nat.max y init) = y :=
          h.trans (Nat.max_eq_left hyi)
        rw [hfold]
        exact List.mem_cons_self _ _
    · exact Or.inr (List.mem_cons_of_mem _ h)

/-- Helper for the claims below: the empty-list case of `emplaceAll`. -/
theorem uint64Max_pos : 0 < uint64Max := by
  norm_num [uint64Max]

/-- The timestamp envelope of a block reachable from the fresh block:
`min_timestamp_` is at most every stored start, `max_timestamp_` is at
least every stored end. -/
theorem emplaceAll_envelope {ts : List TextBox} {b2 : TimerBlock}
    (h : TimerBlock.new.emplaceAll ts = some b2) :
    ∀ x ∈ b2.data, b2.minTimestamp ≤ x.timerInfo.start ∧
      x.timerInfo.end_ ≤ b2.maxTimestamp := by
  suffices H : ∀ ts (b b2 : TimerBlock),
      (∀ x ∈ b.data, b.minTimestamp ≤ x.timerInfo.start ∧ x.timerInfo.end_ ≤ b.maxTimestamp) →
      b.emplaceAll ts = some b2 →
      ∀ x ∈ b2.data, b2.minTimestamp ≤ x.timerInfo.start ∧ x.timerInfo.end_ ≤ b2.maxTimestamp by
    exact H ts TimerBlock.new b2 (by intro x hx; cases hx) h
  intro ts
  induction ts with
  | nil =>
    intro b b2 hb h
    simp only [TimerBlock.emplaceAll, Option.some.injEq] at h
    exact h ▸ hb
  | cons t rest ih =>
    intro b b2 hb h
    simp only [TimerBlock.emplaceAll] at h
    rcases hstep : b.emplaceBack t with _ | b1
    · rw [hstep] at h; cases h
    · rw [hstep] at h
      refine ih b1 b2 ?_ h
      simp only [TimerBlock.emplaceBack] at hstep
      split at hstep
      · cases hstep
        intro x hx
        simp only [List.mem_append, List.mem_singleton] at hx
        rcases hx with hx | hx
        · have := hb x hx
          constructor
          · exact Nat.le_trans (Nat.min_le_right _ _) this.1
          · exact Nat.le_trans this.2 (Nat.le_max_right _ _)
        · subst hx
          exact ⟨Nat.min_le_left _ _, Nat.le_max_left _ _⟩
      · cases hstep

/-- C6: for every `TimerBlock` and every (capacity-respecting) sequence
of `emplace_back` calls on it with `uint64`-ranged timestamps,
`min_timestamp_` is the minimum of the start timestamps and
`max_timestamp_` is the maximum of the end timestamps of the timers
appended so far (each is attained by some appended timer and bounds all
of them); for a block holding no timers, `min_timestamp_` is the maximum
`uint64` value, `max_timestamp_` is `0`, and so
`min_timestamp_ > max_timestamp_`. -/
theorem c6_block_min_max_invariant (ts : List TextBox)
    (h1 : ts.length ≤ kBlockSize)
    (h2 : ∀ t ∈ ts, t.timerInfo.start ≤ uint64Max) :
    ∃ b, TimerBlock.new.emplaceAll ts = some b ∧
      (ts = [] → b.minTimestamp = uint64Max ∧ b.maxTimestamp = 0 ∧
        b.maxTimestamp < b.minTimestamp) ∧
      (ts ≠ [] →
        (b.minTimestamp ∈ ts.map (fun t => t.timerInfo.start) ∧
          ∀ s ∈ ts.map (fun t => t.timerInfo.start), b.minTimestamp ≤ s) ∧
        (b.maxTimestamp ∈ ts.map (fun t => t.timerInfo.end_) ∧
          ∀ e ∈ ts.map (fun t => t.timerInfo.end_), e ≤ b.maxTimestamp)) := by
  have hsz : TimerBlock.new.size + ts.length ≤ kBlockSize := by
    simpa [TimerBlock.new, TimerBlock.size] using h1
  obtain ⟨b, hall, hdata, hmin, hmax⟩ := TimerBlock.emplaceAll_spec ts TimerBlock.new hsz
  simp only [TimerBlock.new] at hmin hmax
  refine ⟨b, hall, ?_, ?_⟩
  · rintro rfl
    simp only [List.map_nil, List.foldl_nil] at hmin hmax
    exact ⟨hmin, hmax, by rw [hmin, hmax]; exact uint64Max_pos⟩
  · intro hne
    have hne2 : ts.map (fun t => t.timerInfo.start) ≠ [] := by
      simpa using hne
    obtain ⟨s0, hs0⟩ := List.exists_mem_of_ne_nil _ hne2
    have hne3 : ts.map (fun t => t.timerInfo.end_) ≠ [] := by
      simpa using hne
    obtain ⟨e0, he0⟩ := List.exists_mem_of_ne_nil _ hne3
    constructor
    · constructor
      · rcases foldlMin_mem (ts.map fun t => t.timerInfo.start) uint64Max with hc | hc
        · -- the fold equals the initial uint64 max; then it must coincide
          -- with some (bounded) element
          have hle : b.minTimestamp ≤ s0 := hmin ▸ foldlMin_le hs0
          have hs0le : s0 ≤ uint64Max := by
            obtain ⟨t0, ht0, rfl⟩ := List.mem_map.mp hs0
            exact h2 t0 ht0
          have : b.minTimestamp = s0 := by
            rw [hmin, hc] at hle ⊢
            omega
          rw [this]; exact hs0
        · rw [hmin]; exact hc
      · intro s hs
        rw [hmin]; exact foldlMin_le hs
    · constructor
      · rcases foldlMax_mem (ts.map fun t => t.timerInfo.end_) 0 with hc | hc
        · have hge : e0 ≤ b.maxTimestamp := hmax ▸ foldlMax_ge he0
          have : b.maxTimestamp = e0 := by
            rw [hmax, hc] at hge ⊢
            omega
          rw [this]; exact he0
        · rw [hmax]; exact hc
      · intro e he
        rw [hmax]; exact foldlMax_ge he

/-- Witness for C6 at a concrete two-timer input. -/
theorem c6_block_min_max_invariant_witness :
    ([⟨⟨5, 7⟩⟩, ⟨⟨3, 4⟩⟩] : List TextBox).length ≤ kBlockSize ∧
    (∀ t ∈ ([⟨⟨5, 7⟩⟩, ⟨⟨3, 4⟩⟩] : List TextBox), t.timerInfo.start ≤ uint64Max) ∧
    (∃ b, TimerBlock.new.emplaceAll [⟨⟨5, 7⟩⟩, ⟨⟨3, 4⟩⟩] = some b ∧
      (([⟨⟨5, 7⟩⟩, ⟨⟨3, 4⟩⟩] : List TextBox) = [] → b.minTimestamp = uint64Max ∧
        b.maxTimestamp = 0 ∧ b.maxTimestamp < b.minTimestamp) ∧
      (([⟨⟨5, 7⟩⟩, ⟨⟨3, 4⟩⟩] : List TextBox) ≠ [] →
        (b.minTimestamp ∈ ([⟨⟨5, 7⟩⟩, ⟨⟨3, 4⟩⟩] : List TextBox).map (fun t => t.timerInfo.start) ∧
          ∀ s ∈ ([⟨⟨5, 7⟩⟩, ⟨⟨3, 4⟩⟩] : List TextBox).map (fun t => t.timerInfo.start),
            b.minTimestamp ≤ s) ∧
        (b.maxTimestamp ∈ ([⟨⟨5, 7⟩⟩, ⟨⟨3, 4⟩⟩] : List TextBox).map (fun t => t.timerInfo.end_) ∧
          ∀ e ∈ ([⟨⟨5, 7⟩⟩, ⟨⟨3, 4⟩⟩] : List TextBox).map (fun t => t.timerInfo.end_),
            e ≤ b.maxTimestamp))) :=
  ⟨by decide, by decide,
    c6_block_min_max_invariant [⟨⟨5, 7⟩⟩, ⟨⟨3, 4⟩⟩] (by decide) (by decide)⟩

/-- C4 (counterexample): a block holding the timers `[0,1]` and
`[10,11]` reports `Intersects(3,4) = true` although no stored timer's
interval overlaps the window `[3,4]`, so "`Intersects(a,b) = false` iff
no timer overlaps `[a,b]`" fails (the "if" direction does not hold). -/
theorem c4_intersects_iff_counterexample :
    TimerBlock.new.emplaceAll [⟨⟨0, 1⟩⟩, ⟨⟨10, 11⟩⟩] =
      some { data := [⟨⟨0, 1⟩⟩, ⟨⟨10, 11⟩⟩], minTimestamp := 0, maxTimestamp := 11 } ∧
    ¬ ((TimerBlock.Intersects
          { data := [⟨⟨0, 1⟩⟩, ⟨⟨10, 11⟩⟩], minTimestamp := 0, maxTimestamp := 11 } 3 4
            = false) ↔
        (∀ tb ∈ ({ data := [⟨⟨0, 1⟩⟩, ⟨⟨10, 11⟩⟩], minTimestamp := 0,
                   maxTimestamp := 11 } : TimerBlock).data,
          ¬ overlaps tb.timerInfo 3 4)) := by
  constructor
  · decide
  · decide

/-- C4 (amended): `Intersects` is a conservative envelope test:
whenever a block built by `emplace_back` calls reports
`Intersects(a,b) = false`, none of its timers' `[start, end]` intervals
overlaps `[a,b]` (the converse does not hold, see the
counterexample). -/
theorem c4_intersects_false_no_overlap (ts : List TextBox) (qa qb : Nat)
    (blk : TimerBlock) (h : TimerBlock.new.emplaceAll ts = some blk)
    (hI : blk.Intersects qa qb = false) :
    ∀ tb ∈ blk.data, ¬ overlaps tb.timerInfo qa qb := by
  have henv := emplaceAll_envelope h
  intro tb htb hov
  obtain ⟨h1, h2⟩ := hov
  obtain ⟨hmin, hmax⟩ := henv tb htb
  simp only [TimerBlock.Intersects, Bool.and_eq_false_iff, decide_eq_false_iff_not] at hI
  rcases hI with hI | hI
  · exact hI (Nat.le_trans h2 hmax)
  · exact hI (Nat.le_trans hmin h1)

/-- Witness for the amended C4 at a concrete input: the window `[20,30]`
is disjoint from the envelope of the block above, and indeed no stored
timer overlaps it. -/
theorem c4_intersects_false_no_overlap_witness :
    (∃ blk, TimerBlock.new.emplaceAll [⟨⟨0, 1⟩⟩, ⟨⟨10, 11⟩⟩] = some blk ∧
      blk.Intersects 20 30 = false ∧
      ∀ tb ∈ blk.data, ¬ overlaps tb.timerInfo 20 30) :=
  ⟨{ data := [⟨⟨0, 1⟩⟩, ⟨⟨10, 11⟩⟩], minTimestamp := 0, maxTimestamp := 11 },
    by decide, by decide,
    c4_intersects_false_no_overlap [⟨⟨0, 1⟩⟩, ⟨⟨10, 11⟩⟩] 20 30 _ (by decide) (by decide)⟩

/-! ## Lemmas about `TimerChain` -/

theorem blocksOf_pos (k : Nat) : 0 < blocksOf k := by
  simp only [blocksOf, kBlockSize]
  split <;> omega

theorem lastSizeOf_le (k : Nat) : lastSizeOf k ≤ kBlockSize := by
  simp only [lastSizeOf, kBlockSize]
  split <;> omega

theorem chainShape_new : ChainShape 0 TimerChain.new := by
  refine ⟨by simp [TimerChain.new, blocksOf], rfl, rfl, rfl, rfl, ?_, ?_, ?_, ?_⟩
  · intro i nd h
    rcases i with _ | i
    · simp only [TimerChain.new, List.getElem?_cons_zero, Option.some.injEq] at h
      subst h; rfl
    · simp [TimerChain.new] at h
  · intro i nd h
    rcases i with _ | i
    · simp only [TimerChain.new, List.getElem?_cons_zero, Option.some.injEq] at h
      subst h; rfl
    · simp [TimerChain.new] at h
  · intro i nd h hi
    simp [TimerChain.new] at hi
  · intro nd h
    simp [TimerChain.new] at h
    subst h
    simp [TimerBlock.new, TimerBlock.size, lastSizeOf]

theorem chainShape_emplaceBack {k : Nat} {c : TimerChain} (h : ChainShape k c)
    (t : TextBox) : ∃ c2, c.emplaceBack t = some c2 ∧ ChainShape (k + 1) c2 := by
  obtain ⟨hlen, hcur, hnb, hroot, hni, hnext, hprev, hfull, hlast⟩ := h
  have hLpos : 0 < c.nodes.length := hlen ▸ blocksOf_pos k
  have hcurlt : c.current < c.nodes.length := by omega
  obtain ⟨cur, hcureq⟩ : ∃ nd, c.nodes[c.current]? = some nd :=
    ⟨_, List.getElem?_eq_getElem hcurlt⟩
  have hcureq' : c.nodes[c.nodes.length - 1]? = some cur := by
    rw [← hcur]; exact hcureq
  have hcursize : cur.block.size = lastSizeOf k := hlast cur hcureq'
  have hnextcur : cur.next = none := by
    have hx := hnext c.current cur hcureq
    rw [hx, if_neg (by omega : ¬ c.current + 1 < c.nodes.length)]
  by_cases hcap : lastSizeOf k = kBlockSize
  · -- the current block is at capacity: a new block is allocated
    have hk0 : k ≠ 0 := by
      intro hk; rw [hk] at hcap
      simp [lastSizeOf, kBlockSize] at hcap
    have hmod : (k - 1) % kBlockSize = kBlockSize - 1 := by
      simp only [lastSizeOf, if_neg hk0] at hcap
      omega
    have hcapb : cur.block.atCapacity = true := by
      simp [TimerBlock.atCapacity, hcursize, hcap]
    set bNew : TimerBlock :=
      { data := [t], minTimestamp := Nat.min t.timerInfo.start uint64Max,
        maxTimestamp := Nat.max t.timerInfo.end_ 0 } with hbNew
    set cur1 : TimerBlockNode := { cur with next := some c.nodes.length } with hcur1
    set newNode : TimerBlockNode :=
      { prev := some c.current, next := none, block := TimerBlock.new } with hnewNode
    set node2 : TimerBlockNode :=
      { prev := some c.current, next := none, block := bNew } with hnode2
    have hnewblock : newNode.block = TimerBlock.new := by rw [hnewNode]
    have hemp0 : TimerBlock.new.emplaceBack t = some bNew := by
      rw [hbNew]
      simp [TimerBlock.emplaceBack, TimerBlock.new, TimerBlock.size, kBlockSize]
    have halloc : c.allocateNewBlock = some
        { nodes := c.nodes.set c.current cur1 ++ [newNode],
          root := c.root, current := c.nodes.length,
          numBlocks := c.numBlocks + 1, numItems := c.numItems } := by
      simp [TimerChain.allocateNewBlock, List.get?_eq_getElem?, hcureq, hnextcur,
        hcur1, hnewNode]
    have hget2 : (c.nodes.set c.current cur1 ++ [newNode])[c.nodes.length]? = some newNode := by
      rw [List.getElem?_append_right (by simp [List.length_set])]
      simp
    have hnode2eq : { newNode with block := bNew } = node2 := by
      rw [hnewNode, hnode2]
    have hstep : c.emplaceBack t = some
        { nodes := (c.nodes.set c.current cur1 ++ [newNode]).set c.nodes.length node2,
          root := c.root, current := c.nodes.length,
          numBlocks := c.numBlocks + 1, numItems := c.numItems + 1 } := by
      simp [TimerChain.emplaceBack, List.get?_eq_getElem?, hcureq, hcapb, halloc,
        hget2, hnewblock, hemp0, hnode2eq]
    refine ⟨_, hstep, ?_⟩
    have hlen2 : ((c.nodes.set c.current cur1 ++ [newNode]).set c.nodes.length node2).length =
        c.nodes.length + 1 := by
      simp
    have hnodes2 : ∀ i : Nat,
        ((c.nodes.set c.current cur1 ++ [newNode]).set c.nodes.length node2)[i]? =
          if i = c.nodes.length then some node2
          else if i = c.current then some cur1
          else c.nodes[i]? := by
      intro i
      by_cases h1 : i = c.nodes.length
      · subst h1
        rw [if_pos rfl]
        exact List.getElem?_set_eq_of_lt _ (by simp)
      · rw [if_neg h1, List.getElem?_set_ne (fun hx => h1 hx.symm)]
        by_cases h2 : i = c.current
        · subst h2
          rw [if_pos rfl, List.getElem?_append_left (by rw [List.length_set]; exact hcurlt)]
          exact List.getElem?_set_eq_of_lt _ hcurlt
        · rw [if_neg h2]
          by_cases h3 : i < c.nodes.length
          · rw [List.getElem?_append_left (by rw [List.length_set]; exact h3),
              List.getElem?_set_ne (fun hx => h2 hx.symm)]
          · rw [List.getElem?_eq_none (by simp; omega),
              List.getElem?_eq_none (by omega)]
    constructor
    · -- nodesLen
      rw [hlen2, hlen]
      simp only [blocksOf, kBlockSize] at hmod ⊢
      rw [if_neg hk0, if_neg (by omega : ¬ k + 1 = 0)]
      omega
    · -- currentIs
      simp only [hlen2, Nat.add_sub_cancel]
    · -- numBlocksIs
      simp only [hlen2, hnb]
    · -- rootIs
      exact hroot
    · -- numItemsIs
      simp only [hni]
    · -- nextLinks
      intro i nd hnd
      simp only [hlen2]
      rw [hnodes2 i] at hnd
      split_ifs at hnd with h1 h2
      · injection hnd with hnd2
        subst hnd2
        subst h1
        rw [hnode2, if_neg (by omega : ¬ c.nodes.length + 1 < c.nodes.length + 1)]
      · injection hnd with hnd2
        subst hnd2
        subst h2
        rw [hcur1, if_pos (by omega : c.current + 1 < c.nodes.length + 1)]
        exact congrArg some (by omega)
      · have hi : i < c.nodes.length := (List.getElem?_eq_some.mp hnd).1
        have hx := hnext i nd hnd
        rw [hx, if_pos (by omega : i + 1 < c.nodes.length),
          if_pos (by omega : i + 1 < c.nodes.length + 1)]
    · -- prevLinks
      intro i nd hnd
      rw [hnodes2 i] at hnd
      split_ifs at hnd with h1 h2
      · injection hnd with hnd2
        subst hnd2
        subst h1
        rw [hnode2, if_neg (by omega : ¬ c.nodes.length = 0)]
        exact congrArg some hcur
      · injection hnd with hnd2
        subst hnd2
        subst h2
        rw [hcur1]
        exact hprev c.current cur hcureq
      · exact hprev i nd hnd
    · -- fullButLast
      intro i nd hnd hi
      simp only [hlen2] at hi
      rw [hnodes2 i] at hnd
      split_ifs at hnd with h1 h2
      · omega
      · injection hnd with hnd2
        subst hnd2
        subst h2
        rw [hcur1]
        exact hcursize.trans hcap
      · exact hfull i nd hnd (by
          have hilt : i < c.nodes.length := (List.getElem?_eq_some.mp hnd).1
          omega)
    · -- lastBlockSize
      intro nd hnd
      simp only [hlen2, Nat.add_sub_cancel] at hnd
      rw [hnodes2 c.nodes.length, if_pos rfl] at hnd
      injection hnd with hnd2
      subst hnd2
      show (1 : Nat) = lastSizeOf (k + 1)
      have hmod2 : k % kBlockSize = 0 := by
        simp only [kBlockSize] at hmod ⊢
        omega
      simp only [lastSizeOf, if_neg (by omega : ¬ k + 1 = 0), Nat.add_sub_cancel]
      simp only [kBlockSize] at hmod2 ⊢
      omega
  · -- the current block still has room: append into it
    have hroom : cur.block.size < kBlockSize := by
      rw [hcursize]
      exact Nat.lt_of_le_of_ne (lastSizeOf_le k) hcap
    have hcapb : cur.block.atCapacity = false := by
      simp only [TimerBlock.atCapacity, beq_eq_false_iff_ne, ne_eq]
      omega
    set bUpd : TimerBlock :=
      { data := cur.block.data ++ [t],
        minTimestamp := Nat.min t.timerInfo.start cur.block.minTimestamp,
        maxTimestamp := Nat.max t.timerInfo.end_ cur.block.maxTimestamp } with hbUpd
    set curUpd : TimerBlockNode := { cur with block := bUpd } with hcurUpd
    have hemp1 : cur.block.emplaceBack t = some bUpd := by
      rw [hbUpd]
      simp [TimerBlock.emplaceBack, hroom]
    have hstep : c.emplaceBack t = some
        { nodes := c.nodes.set c.current curUpd,
          root := c.root, current := c.current,
          numBlocks := c.numBlocks, numItems := c.numItems + 1 } := by
      simp [TimerChain.emplaceBack, List.get?_eq_getElem?, hcureq, hcapb, hemp1,
        ← hcurUpd]
    refine ⟨_, hstep, ?_⟩
    have hlen2 : (c.nodes.set c.current curUpd).length = c.nodes.length := by
      simp
    have hnodes2 : ∀ i : Nat,
        (c.nodes.set c.current curUpd)[i]? =
          if i = c.current then some curUpd else c.nodes[i]? := by
      intro i
      by_cases h1 : i = c.current
      · subst h1
        rw [if_pos rfl]
        exact List.getElem?_set_eq_of_lt _ hcurlt
      · rw [if_neg h1, List.getElem?_set_ne (fun hx => h1 hx.symm)]
    have hsizeUpd : curUpd.block.size = lastSizeOf k + 1 := by
      rw [hcurUpd, hbUpd]
      simp only [TimerBlock.size, List.length_append, List.length_cons, List.length_nil]
      simp only [TimerBlock.size] at hcursize
      omega
    constructor
    · -- nodesLen
      rw [hlen2, hlen]
      simp only [blocksOf, kBlockSize]
      simp only [lastSizeOf, kBlockSize] at hcap
      rcases Nat.eq_zero_or_pos k with hk | hk
      · subst hk; simp
      · rw [if_neg (by omega : ¬ k = 0)] at hcap
        rw [if_neg (by omega : ¬ k = 0), if_neg (by omega : ¬ k + 1 = 0)]
        omega
    · -- currentIs
      rw [hlen2]
      exact hcur
    · -- numBlocksIs
      simp only [hlen2, hnb]
    · -- rootIs
      exact hroot
    · -- numItemsIs
      simp only [hni]
    · -- nextLinks
      intro i nd hnd
      simp only [hlen2]
      rw [hnodes2 i] at hnd
      split_ifs at hnd with h1
      · injection hnd with hnd2
        subst hnd2
        subst h1
        rw [hcurUpd]
        exact hnext c.current cur hcureq
      · exact hnext i nd hnd
    · -- prevLinks
      intro i nd hnd
      rw [hnodes2 i] at hnd
      split_ifs at hnd with h1
      · injection hnd with hnd2
        subst hnd2
        subst h1
        rw [hcurUpd]
        exact hprev c.current cur hcureq
      · exact hprev i nd hnd
    · -- fullButLast
      intro i nd hnd hi
      simp only [hlen2] at hi
      rw [hnodes2 i] at hnd
      split_ifs at hnd with h1
      · omega
      · exact hfull i nd hnd hi
    · -- lastBlockSize
      intro nd hnd
      simp only [hlen2] at hnd
      rw [hnodes2, if_pos hcur.symm] at hnd
      injection hnd with hnd2
      subst hnd2
      rw [hsizeUpd]
      simp only [lastSizeOf, kBlockSize] at hcap ⊢
      rcases Nat.eq_zero_or_pos k with hk | hk
      · subst hk; simp
      · rw [if_neg (by omega : ¬ k = 0)] at hcap
        rw [if_neg (by omega : ¬ k = 0), if_neg (by omega : ¬ k + 1 = 0), Nat.add_sub_cancel]
        omega

theorem chainShape_emplaceAll (ts : List TextBox) :
    ∀ (k : Nat) (c : TimerChain), ChainShape k c →
      ∃ c2, c.emplaceAll ts = some c2 ∧ ChainShape (k + ts.length) c2 := by
  induction ts with
  | nil =>
    intro k c h
    exact ⟨c, rfl, by simpa using h⟩
  | cons t rest ih =>
    intro k c h
    obtain ⟨c1, hstep, hshape⟩ := chainShape_emplaceBack h t
    obtain ⟨c2, hall, hshape2⟩ := ih (k + 1) c1 hshape
    refine ⟨c2, ?_, ?_⟩
    · simp only [TimerChain.emplaceAll, hstep]
      exact hall
    · simpa [Nat.add_assoc, Nat.add_comm, Nat.add_left_comm] using hshape2

/-- C10: for every sequence of `TimerChain::emplace_back` calls on a
fresh chain, the whole computation succeeds (`some` result), i.e. the
`CHECK(size() < kBlockSize)` in `TimerBlock::emplace_back` and the
`CHECK(current_->next_ == nullptr)` in `AllocateNewBlock` never fail and
no invalid block access occurs; moreover the chain always holds at least
one block and `current_` is the last block of the chain (its `next_` is
null). -/
theorem c10_chain_capacity_check_never_fails (ts : List TextBox) :
    ∃ c, TimerChain.new.emplaceAll ts = some c ∧
      c.nodes ≠ [] ∧
      c.current = c.nodes.length - 1 ∧
      ∃ cur, c.nodes[c.current]? = some cur ∧ cur.next = none := by
  obtain ⟨c, hall, hshape⟩ := chainShape_emplaceAll ts 0 TimerChain.new chainShape_new
  obtain ⟨hlen, hcur, -, -, -, hnext, -, -, -⟩ := hshape
  have hLpos : 0 < c.nodes.length := hlen ▸ blocksOf_pos _
  refine ⟨c, hall, ?_, hcur, ?_⟩
  · intro hz
    rw [hz] at hLpos
    simp at hLpos
  · have hlt : c.current < c.nodes.length := by omega
    obtain ⟨cur, hc⟩ : ∃ nd, c.nodes[c.current]? = some nd :=
      ⟨_, List.getElem?_eq_getElem hlt⟩
    refine ⟨cur, hc, ?_⟩
    have hx := hnext c.current cur hc
    rw [hx, if_neg (by omega : ¬ c.current + 1 < c.nodes.length)]

/-- C5 (amended): appending `k = kBlockSize * m` timers (`m ≥ 1`) to a
fresh `TimerChain` yields exactly `m` blocks, all at full capacity; and
after any sequence of appends every block except the current (last) one
is at full capacity. -/
theorem c5_full_blocks_amended :
    (∀ (ts : List TextBox) (m : Nat), ts.length = kBlockSize * m → 1 ≤ m →
      ∃ c, TimerChain.new.emplaceAll ts = some c ∧
        c.numBlocks = m ∧ c.nodes.length = m ∧
        ∀ nd ∈ c.nodes, nd.block.size = kBlockSize) ∧
    (∀ ts : List TextBox, ∃ c, TimerChain.new.emplaceAll ts = some c ∧
      c.current = c.nodes.length - 1 ∧
      ∀ i nd, c.nodes[i]? = some nd → i + 1 < c.nodes.length →
        nd.block.size = kBlockSize) := by
  constructor
  · intro ts m hk hm
    obtain ⟨c, hall, hshape⟩ := chainShape_emplaceAll ts 0 TimerChain.new chainShape_new
    obtain ⟨hlen, hcur, hnb, -, -, -, -, hfull, hlast⟩ := hshape
    rw [Nat.zero_add, hk] at hlen hlast
    have hlenm : c.nodes.length = m := by
      rw [hlen]
      simp only [blocksOf, kBlockSize]
      rw [if_neg (by omega : ¬ 1024 * m = 0)]
      omega
    refine ⟨c, hall, by rw [hnb, hlenm], hlenm, ?_⟩
    intro nd hnd
    obtain ⟨i, hi⟩ := List.mem_iff_getElem?.mp hnd
    have hilt : i < c.nodes.length := (List.getElem?_eq_some.mp hi).1
    by_cases hend : i + 1 < c.nodes.length
    · exact hfull i nd hi hend
    · have hieq : i = c.nodes.length - 1 := by omega
      rw [hieq] at hi
      have hs := hlast nd hi
      rw [hs]
      simp only [lastSizeOf, kBlockSize]
      rw [if_neg (by omega : ¬ 1024 * m = 0)]
      omega
  · intro ts
    obtain ⟨c, hall, hshape⟩ := chainShape_emplaceAll ts 0 TimerChain.new chainShape_new
    obtain ⟨-, hcur, -, -, -, -, -, hfull, -⟩ := hshape
    exact ⟨c, hall, hcur, hfull⟩

/-- Witness for the amended C5: `1024` timers fill exactly one block. -/
theorem c5_full_blocks_amended_witness :
    (List.replicate 1024 (⟨⟨0, 0⟩⟩ : TextBox)).length = kBlockSize * 1 ∧
    (∃ c, TimerChain.new.emplaceAll (List.replicate 1024 (⟨⟨0, 0⟩⟩ : TextBox)) = some c ∧
      c.numBlocks = 1 ∧ c.nodes.length = 1 ∧
      ∀ nd ∈ c.nodes, nd.block.size = kBlockSize) ∧
    (∃ c, TimerChain.new.emplaceAll ([] : List TextBox) = some c ∧
      c.current = c.nodes.length - 1 ∧
      ∀ i nd, c.nodes[i]? = some nd → i + 1 < c.nodes.length →
        nd.block.size = kBlockSize) :=
  ⟨by rw [List.length_replicate]; norm_num [kBlockSize],
    c5_full_blocks_amended.1 (List.replicate 1024 ⟨⟨0, 0⟩⟩) 1
      (by rw [List.length_replicate]; norm_num [kBlockSize]) (by omega),
    c5_full_blocks_amended.2 []⟩

/-- C5 (counterexample): `k = 0` is a multiple of the block capacity,
but a fresh chain with `0` timers appended holds `1` block, not
`k / N = 0` blocks. -/
theorem c5_counterexample_k_zero :
    ([] : List TextBox).length = kBlockSize * 0 ∧
    TimerChain.new.emplaceAll [] = some TimerChain.new ∧
    TimerChain.new.numBlocks ≠ ([] : List TextBox).length / kBlockSize := by
  refine ⟨rfl, rfl, ?_⟩
  decide

/-! ## Lemmas about the capture deserializer -/

theorem messagesF_congr : ∀ (f1 f2 : Nat) (bytes : List Nat),
    bytes.length < f1 → bytes.length < f2 → messagesF f1 bytes = messagesF f2 bytes := by
  intro f1
  induction f1 with
  | zero => intro f2 bytes h1; omega
  | succ f1 ih =>
    intro f2 bytes h1 h2
    match f2 with
    | 0 => omega
    | f2 + 1 =>
      simp only [messagesF]
      cases h : readMessage bytes with
      | none => rfl
      | some pr =>
        obtain ⟨payload, rest⟩ := pr
        have hlt := readMessage_rest_lt h
        show payload :: messagesF f1 rest = payload :: messagesF f2 rest
        rw [ih f2 rest (by omega) (by omega)]

theorem messages_eq_nil {bytes : List Nat} (h : readMessage bytes = none) :
    messages bytes = [] := by
  simp [messages, messagesF, h]

theorem messages_eq_cons {bytes payload rest : List Nat}
    (h : readMessage bytes = some (payload, rest)) :
    messages bytes = payload :: messages rest := by
  have hlt := readMessage_rest_lt h
  have h1 : messagesF (bytes.length + 1) bytes = payload :: messagesF bytes.length rest := by
    simp only [messagesF, h]
  have h2 : messagesF bytes.length rest = messagesF (rest.length + 1) rest :=
    messagesF_congr bytes.length (rest.length + 1) rest (by omega) (by omega)
  show messagesF (bytes.length + 1) bytes = payload :: messagesF (rest.length + 1) rest
  rw [h1, h2]

theorem timerLoopF_congr (flag : Nat → Bool) : ∀ (f1 f2 : Nat) (bytes : List Nat) (n : Nat),
    bytes.length < f1 → bytes.length < f2 →
    timerLoopF flag f1 bytes n = timerLoopF flag f2 bytes n := by
  intro f1
  induction f1 with
  | zero => intro f2 bytes n h1; omega
  | succ f1 ih =>
    intro f2 bytes n h1 h2
    match f2 with
    | 0 => omega
    | f2 + 1 =>
      simp only [timerLoopF]
      cases h : readMessage bytes with
      | none => rfl
      | some pr =>
        obtain ⟨payload, rest⟩ := pr
        have hlt := readMessage_rest_lt h
        cases hf : flag n with
        | true => rfl
        | false =>
          show Callback.onTimer payload :: timerLoopF flag f1 rest (n + 1) =
            Callback.onTimer payload :: timerLoopF flag f2 rest (n + 1)
          rw [ih f2 rest (n + 1) (by omega) (by omega)]

theorem timerLoop_eq_complete {bytes : List Nat} {flag : Nat → Bool} {n : Nat}
    (h : readMessage bytes = none) : timerLoop bytes flag n = [Callback.onCaptureComplete] := by
  simp [timerLoop, timerLoopF, h]

theorem timerLoop_eq_cancel {bytes payload rest : List Nat} {flag : Nat → Bool} {n : Nat}
    (h : readMessage bytes = some (payload, rest)) (hf : flag n = true) :
    timerLoop bytes flag n = [Callback.onCaptureCancelled] := by
  simp [timerLoop, timerLoopF, h, hf]

theorem timerLoop_eq_step {bytes payload rest : List Nat} {flag : Nat → Bool} {n : Nat}
    (h : readMessage bytes = some (payload, rest)) (hf : flag n = false) :
    timerLoop bytes flag n = Callback.onTimer payload :: timerLoop rest flag (n + 1) := by
  have hlt := readMessage_rest_lt h
  have h1 : timerLoopF flag (bytes.length + 1) bytes n =
      Callback.onTimer payload :: timerLoopF flag bytes.length rest (n + 1) := by
    simp only [timerLoopF, h, hf, Bool.false_eq_true, if_false]
  have h2 : timerLoopF flag bytes.length rest (n + 1) =
      timerLoopF flag (rest.length + 1) rest (n + 1) :=
    timerLoopF_congr flag bytes.length (rest.length + 1) rest (n + 1) (by omega) (by omega)
  show timerLoopF flag (bytes.length + 1) bytes n =
    Callback.onTimer payload :: timerLoopF flag (rest.length + 1) rest (n + 1)
  rw [h1, h2]

theorem timerLoop_false_aux : ∀ (fuel : Nat) (bytes : List Nat) (n : Nat),
    bytes.length < fuel →
    timerLoop bytes (fun _ => false) n =
      (messages bytes).map Callback.onTimer ++ [Callback.onCaptureComplete] := by
  intro fuel
  induction fuel with
  | zero => intro bytes n h1; omega
  | succ fuel ih =>
    intro bytes n h1
    cases h : readMessage bytes with
    | none =>
      rw [timerLoop_eq_complete h, messages_eq_nil h]
      rfl
    | some pr =>
      obtain ⟨payload, rest⟩ := pr
      have hlt := readMessage_rest_lt h
      rw [timerLoop_eq_step h rfl, messages_eq_cons h, ih rest (n + 1) (by omega)]
      rfl

theorem timerLoop_false (bytes : List Nat) (n : Nat) :
    timerLoop bytes (fun _ => false) n =
      (messages bytes).map Callback.onTimer ++ [Callback.onCaptureComplete] :=
  timerLoop_false_aux (bytes.length + 1) bytes n (by omega)

theorem timerLoop_flagFrom_aux : ∀ (fuel : Nat) (bytes : List Nat) (n t : Nat),
    bytes.length < fuel → n ≤ t →
    timerLoop bytes (flagFrom t) n =
      if n + (messages bytes).length ≤ t then
        (messages bytes).map Callback.onTimer ++ [Callback.onCaptureComplete]
      else
        ((messages bytes).take (t - n)).map Callback.onTimer ++
          [Callback.onCaptureCancelled] := by
  intro fuel
  induction fuel with
  | zero => intro bytes n t h1; omega
  | succ fuel ih =>
    intro bytes n t h1 hnt
    cases h : readMessage bytes with
    | none =>
      rw [timerLoop_eq_complete h, messages_eq_nil h, if_pos (by simpa using hnt)]
      rfl
    | some pr =>
      obtain ⟨payload, rest⟩ := pr
      have hlt := readMessage_rest_lt h
      rw [messages_eq_cons h]
      by_cases hteq : t = n
      · subst hteq
        rw [timerLoop_eq_cancel h (by simp [flagFrom]),
          if_neg (by simp only [List.length_cons]; omega)]
        simp
      · have hflag : flagFrom t n = false := by
          simp only [flagFrom, decide_eq_false_iff_not]
          omega
        rw [timerLoop_eq_step h hflag, ih rest (n + 1) t (by omega) (by omega)]
        by_cases hcond : n + 1 + (messages rest).length ≤ t
        · rw [if_pos hcond, if_pos (by simp only [List.length_cons]; omega)]
          rfl
        · rw [if_neg hcond, if_neg (by simp only [List.length_cons]; omega)]
          have htake : (payload :: messages rest).take (t - n) =
              payload :: (messages rest).take (t - (n + 1)) := by
            have : t - n = (t - (n + 1)) + 1 := by omega
            rw [this, List.take_succ_cons]
          rw [htake]
          rfl

theorem timerLoop_flagFrom (bytes : List Nat) (n t : Nat) (hnt : n ≤ t) :
    timerLoop bytes (flagFrom t) n =
      if n + (messages bytes).length ≤ t then
        (messages bytes).map Callback.onTimer ++ [Callback.onCaptureComplete]
      else
        ((messages bytes).take (t - n)).map Callback.onTimer ++
          [Callback.onCaptureCancelled] :=
  timerLoop_flagFrom_aux (bytes.length + 1) bytes n t (by omega) hnt

theorem deliverLoop_false (items : List Callback) (n : Nat) :
    deliverLoop items (fun _ => false) n = (items, n + items.length, false) := by
  induction items generalizing n with
  | nil => simp [deliverLoop]
  | cons x xs ih =>
    simp [deliverLoop, ih (n + 1)]
    omega

theorem deliverLoop_flagFrom (items : List Callback) (n t : Nat) (hnt : n ≤ t) :
    deliverLoop items (flagFrom t) n =
      if n + items.length ≤ t then (items, n + items.length, false)
      else (items.take (t - n) ++ [Callback.onCaptureCancelled], t + 1, true) := by
  induction items generalizing n with
  | nil =>
    rw [if_pos (by simpa using hnt)]
    rfl
  | cons x xs ih =>
    by_cases hteq : t = n
    · subst hteq
      have hflag : flagFrom t t = true := by simp [flagFrom]
      rw [if_neg (by simp only [List.length_cons]; omega)]
      simp [deliverLoop, hflag]
    · have hflag : flagFrom t n = false := by
        simp only [flagFrom, decide_eq_false_iff_not]
        omega
      simp only [deliverLoop, hflag, Bool.false_eq_true, if_false]
      rw [ih (n + 1) (by omega)]
      by_cases hcond : n + 1 + xs.length ≤ t
      · rw [if_pos hcond, if_pos (by simp only [List.length_cons]; omega)]
        have harith : n + 1 + xs.length = n + (x :: xs).length := by
          simp only [List.length_cons]
          omega
        rw [harith]
      · rw [if_neg hcond, if_neg (by simp only [List.length_cons]; omega)]
        have htake : (x :: xs).take (t - n) = x :: xs.take (t - (n + 1)) := by
          have hsub : t - n = (t - (n + 1)) + 1 := by omega
          rw [hsub, List.take_succ_cons]
        rw [htake]
        rfl

theorem loadCaptureInfo_false (ci : CaptureInfo) (bytes : List Nat)
    (hm : modulesOk ci = true) :
    loadCaptureInfo ci bytes (fun _ => false) =
      some (Callback.onCaptureStarted ::
        (eventCallbacks ci ++ (messages bytes).map Callback.onTimer ++
          [Callback.onCaptureComplete])) := by
  simp [loadCaptureInfo, hm, deliverLoop_false, timerLoop_false]

/-- The behaviour of `LoadCaptureInfo` under a monotone cancellation
flag that is set between its `t-1`-st and `t`-th read: cancellation
before the third read yields only `OnCaptureCancelled`; a later but
timely set flag yields `OnCaptureStarted`, the deliveries guarded by the
reads that still found the flag clear, then `OnCaptureCancelled` and
nothing else; a flag set after the last read leaves the run
untouched. -/
theorem loadCaptureInfo_flagFrom (ci : CaptureInfo) (bytes : List Nat) (t : Nat)
    (hm : modulesOk ci = true) :
    loadCaptureInfo ci bytes (flagFrom t) =
      some (if t < 3 then [Callback.onCaptureCancelled]
        else if t < totalChecks ci bytes then
          Callback.onCaptureStarted ::
            ((eventCallbacks ci ++ (messages bytes).map Callback.onTimer).take (t - 3) ++
              [Callback.onCaptureCancelled])
        else
          Callback.onCaptureStarted ::
            (eventCallbacks ci ++ (messages bytes).map Callback.onTimer ++
              [Callback.onCaptureComplete])) := by
  have htc : totalChecks ci bytes =
      3 + (eventCallbacks ci).length + (messages bytes).length := rfl
  by_cases h3 : t < 3
  · rw [if_pos h3]
    interval_cases t
    · simp [loadCaptureInfo, flagFrom]
    · simp [loadCaptureInfo, flagFrom]
    · simp [loadCaptureInfo, flagFrom, hm]
  · rw [if_neg h3]
    have hf0 : flagFrom t 0 = false := by
      simp only [flagFrom, decide_eq_false_iff_not]; omega
    have hf1 : flagFrom t 1 = false := by
      simp only [flagFrom, decide_eq_false_iff_not]; omega
    have hf2 : flagFrom t 2 = false := by
      simp only [flagFrom, decide_eq_false_iff_not]; omega
    by_cases hcond : 3 + (eventCallbacks ci).length ≤ t
    · have hD : deliverLoop (eventCallbacks ci) (flagFrom t) 3 =
          (eventCallbacks ci, 3 + (eventCallbacks ci).length, false) := by
        rw [deliverLoop_flagFrom (eventCallbacks ci) 3 t (by omega), if_pos hcond]
      by_cases hcond2 : 3 + (eventCallbacks ci).length + (messages bytes).length ≤ t
      · have hT : timerLoop bytes (flagFrom t) (3 + (eventCallbacks ci).length) =
            (messages bytes).map Callback.onTimer ++ [Callback.onCaptureComplete] := by
          rw [timerLoop_flagFrom bytes (3 + (eventCallbacks ci).length) t (by omega),
            if_pos (by omega :
              3 + (eventCallbacks ci).length + (messages bytes).length ≤ t)]
        rw [if_neg (by omega : ¬ t < totalChecks ci bytes)]
        simp [loadCaptureInfo, hm, hf0, hf1, hf2, hD, hT]
      · have hT : timerLoop bytes (flagFrom t) (3 + (eventCallbacks ci).length) =
            ((messages bytes).take (t - (3 + (eventCallbacks ci).length))).map
                Callback.onTimer ++ [Callback.onCaptureCancelled] := by
          rw [timerLoop_flagFrom bytes (3 + (eventCallbacks ci).length) t (by omega),
            if_neg (by omega :
              ¬ 3 + (eventCallbacks ci).length + (messages bytes).length ≤ t)]
        rw [if_pos (by omega : t < totalChecks ci bytes)]
        have htake : (eventCallbacks ci ++ (messages bytes).map Callback.onTimer).take
            (t - 3) = eventCallbacks ci ++
              ((messages bytes).take (t - (3 + (eventCallbacks ci).length))).map
                Callback.onTimer := by
          have hidx : t - 3 - (eventCallbacks ci).length =
              t - (3 + (eventCallbacks ci).length) := by omega
          rw [List.take_append_eq_append_take,
            List.take_of_length_le (by omega : (eventCallbacks ci).length ≤ t - 3),
            hidx, ← List.map_take]
        rw [htake]
        simp [loadCaptureInfo, hm, hf0, hf1, hf2, hD, hT]
    · have hD : deliverLoop (eventCallbacks ci) (flagFrom t) 3 =
          ((eventCallbacks ci).take (t - 3) ++ [Callback.onCaptureCancelled],
            t + 1, true) := by
        rw [deliverLoop_flagFrom (eventCallbacks ci) 3 t (by omega), if_neg hcond]
      rw [if_pos (by omega : t < totalChecks ci bytes)]
      have htake : (eventCallbacks ci ++ (messages bytes).map Callback.onTimer).take
          (t - 3) = (eventCallbacks ci).take (t - 3) := by
        rw [List.take_append_eq_append_take,
          (by omega : t - 3 - (eventCallbacks ci).length = 0), List.take_zero,
          List.append_nil]
      rw [htake]
      simp [loadCaptureInfo, hm, hf0, hf1, hf2, hD]

/-- Every per-element delivery of the eight metadata loops is a
non-terminal callback. -/
theorem eventCallbacks_nonterminal (ci : CaptureInfo) :
    ∀ x ∈ eventCallbacks ci, x.isTerminal = false := by
  intro x hx
  simp only [eventCallbacks, List.mem_append, List.mem_map] at hx
  rcases hx with ((((((h | h) | h) | h) | h) | h) | h) | h <;>
    · obtain ⟨a, -, rfl⟩ := h
      rfl

theorem onTimer_nonterminal (bytes : List Nat) :
    ∀ x ∈ (messages bytes).map Callback.onTimer, x.isTerminal = false := by
  intro x hx
  obtain ⟨a, -, rfl⟩ := List.mem_map.mp hx
  rfl

/-- The deliverable units of one load: all non-terminal. -/
theorem units_nonterminal (ci : CaptureInfo) (bytes : List Nat) :
    ∀ x ∈ eventCallbacks ci ++ (messages bytes).map Callback.onTimer,
      (!x.isTerminal) = true := by
  intro x hx
  rcases List.mem_append.mp hx with h | h
  · rw [eventCallbacks_nonterminal ci x h]
    rfl
  · rw [onTimer_nonterminal bytes x h]
    rfl

theorem eventCount_nil : eventCount [] = 0 := rfl

theorem eventCount_cons (x : Callback) (l : List Callback) :
    eventCount (x :: l) = (if x.isTerminal then 0 else 1) + eventCount l := by
  simp only [eventCount, List.filter_cons]
  cases hx : x.isTerminal
  · simp [hx]
    omega
  · simp [hx]

theorem eventCount_append (l1 l2 : List Callback) :
    eventCount (l1 ++ l2) = eventCount l1 + eventCount l2 := by
  simp [eventCount, List.filter_append]

theorem eventCount_all_nonterminal (l : List Callback)
    (h : ∀ x ∈ l, (!x.isTerminal) = true) : eventCount l = l.length := by
  simp only [eventCount]
  rw [List.filter_eq_self.mpr h]

/-- Closed form for the number of non-terminal callbacks delivered under
a monotone cancellation flag with threshold `t`. -/
theorem eventCount_load_flagFrom (ci : CaptureInfo) (bytes : List Nat) (t : Nat)
    (hm : modulesOk ci = true) :
    ∀ tr, loadCaptureInfo ci bytes (flagFrom t) = some tr →
      eventCount tr = if t < 3 then 0
        else if t < totalChecks ci bytes then t - 2
        else (eventCallbacks ci).length + (messages bytes).length + 1 := by
  intro tr htr
  rw [loadCaptureInfo_flagFrom ci bytes t hm] at htr
  injection htr with htr
  subst htr
  have hunits := units_nonterminal ci bytes
  have htc : totalChecks ci bytes =
      3 + (eventCallbacks ci).length + (messages bytes).length := rfl
  split_ifs with h1 h2
  · rfl
  · rw [eventCount_cons, eventCount_append,
      eventCount_all_nonterminal _ (fun a ha => hunits a (List.take_subset _ _ ha))]
    have hlen : (List.take (t - 3)
        (eventCallbacks ci ++ (messages bytes).map Callback.onTimer)).length = t - 3 := by
      rw [List.length_take]
      refine Nat.min_eq_left ?_
      simp only [List.length_append, List.length_map]
      omega
    rw [hlen]
    simp [Callback.isTerminal, eventCount_cons, eventCount_nil]
    omega
  · rw [eventCount_cons, eventCount_append, eventCount_append,
      eventCount_all_nonterminal _ (fun a ha => hunits a (List.mem_append_left _ ha)),
      eventCount_all_nonterminal _
        (fun a ha => hunits a (List.mem_append_right _ ha))]
    simp [Callback.isTerminal, eventCount_cons, eventCount_nil, List.length_map]
    omega

theorem getLast?_cons_concat {α : Type} (x : α) (l : List α) (a : α) :
    (x :: (l ++ [a])).getLast? = some a := by
  rw [← List.cons_append]
  exact List.getLast?_concat _

theorem toList_append (a b : String) : (a ++ b).toList = a.toList ++ b.toList := rfl

/-- C3: the decode loop of `LoadCaptureInfo` reads the cancellation flag
before processing each unit of work.  With the flag modelled as set
between its `t-1`-st and `t`-th read (`flagFrom t`): (i) once a read
observes the flag, `OnCaptureCancelled` is the last callback — nothing
is delivered afterwards; (ii) whenever the flag is set before the reads
run out it is observed and `OnCaptureCancelled` is delivered; (iii) a
flag set after the last read leaves the run identical to an uncancelled
one; (iv) delaying the set-point past one more read adds at most one
delivered (non-terminal) callback, so after the flag is set at most one
read-ahead callback is delivered before `OnCaptureCancelled`,
independent of the remaining stream length. -/
theorem c3_cancellation_checked_each_unit (ci : CaptureInfo) (bytes : List Nat) (t : Nat)
    (hm : modulesOk ci = true) :
    (∀ tr, loadCaptureInfo ci bytes (flagFrom t) = some tr →
      Callback.onCaptureCancelled ∈ tr →
      tr.getLast? = some Callback.onCaptureCancelled) ∧
    (t < totalChecks ci bytes →
      ∃ tr, loadCaptureInfo ci bytes (flagFrom t) = some tr ∧
        tr.getLast? = some Callback.onCaptureCancelled) ∧
    (totalChecks ci bytes ≤ t →
      loadCaptureInfo ci bytes (flagFrom t) = loadCaptureInfo ci bytes (fun _ => false)) ∧
    (∀ tr tr2, loadCaptureInfo ci bytes (flagFrom t) = some tr →
      loadCaptureInfo ci bytes (flagFrom (t + 1)) = some tr2 →
      eventCount tr2 ≤ eventCount tr + 1) := by
  have htc : totalChecks ci bytes =
      3 + (eventCallbacks ci).length + (messages bytes).length := rfl
  refine ⟨?_, ?_, ?_, ?_⟩
  · intro tr htr hmem
    rw [loadCaptureInfo_flagFrom ci bytes t hm] at htr
    injection htr with htr
    subst htr
    split_ifs at hmem ⊢ with h1 h2
    · rfl
    · exact getLast?_cons_concat _ _ _
    · exfalso
      rcases List.mem_cons.mp hmem with h | h
      · simp at h
      · rcases List.mem_append.mp h with h | h
        · have := units_nonterminal ci bytes _ h
          simp [Callback.isTerminal] at this
        · simp at h
  · intro hlt
    by_cases h3 : t < 3
    · refine ⟨_, loadCaptureInfo_flagFrom ci bytes t hm, ?_⟩
      rw [if_pos h3]
      rfl
    · refine ⟨_, loadCaptureInfo_flagFrom ci bytes t hm, ?_⟩
      rw [if_neg h3, if_pos hlt]
      exact getLast?_cons_concat _ _ _
  · intro hge
    rw [loadCaptureInfo_flagFrom ci bytes t hm, loadCaptureInfo_false ci bytes hm,
      if_neg (by omega : ¬ t < 3), if_neg (by omega : ¬ t < totalChecks ci bytes)]
  · intro tr tr2 h1 h2
    rw [eventCount_load_flagFrom ci bytes t hm tr h1,
      eventCount_load_flagFrom ci bytes (t + 1) hm tr2 h2]
    split_ifs <;> omega

/-- Witness for C3 at a concrete capture-info, stream and set-point. -/
theorem c3_cancellation_checked_each_unit_witness :
    modulesOk emptyCaptureInfo = true ∧
    ((∀ tr, loadCaptureInfo emptyCaptureInfo [] (flagFrom 1) = some tr →
      Callback.onCaptureCancelled ∈ tr →
      tr.getLast? = some Callback.onCaptureCancelled) ∧
    (1 < totalChecks emptyCaptureInfo [] →
      ∃ tr, loadCaptureInfo emptyCaptureInfo [] (flagFrom 1) = some tr ∧
        tr.getLast? = some Callback.onCaptureCancelled) ∧
    (totalChecks emptyCaptureInfo [] ≤ 1 →
      loadCaptureInfo emptyCaptureInfo [] (flagFrom 1) =
        loadCaptureInfo emptyCaptureInfo [] (fun _ => false)) ∧
    (∀ tr tr2, loadCaptureInfo emptyCaptureInfo [] (flagFrom 1) = some tr →
      loadCaptureInfo emptyCaptureInfo [] (flagFrom (1 + 1)) = some tr2 →
      eventCount tr2 ≤ eventCount tr + 1)) :=
  ⟨by decide, c3_cancellation_checked_each_unit emptyCaptureInfo [] 1 (by decide)⟩

/-- C2 (amended): in the streaming phase, both a normal end of stream
and a malformed message (length prefix with too few payload bytes; a
payload that fails to parse is not even detected, as `ParseFromArray`'s
result is ignored) terminate the load with `OnCaptureComplete` — never
`OnCaptureFailed`.  The failure message naming the source file and
hinting at incompatible older formats is produced only in the
header/metadata phase, when the header or metadata message itself cannot
be read. -/
theorem c2_streaming_end_amended :
    (∀ (ci : CaptureInfo) (bytes : List Nat), modulesOk ci = true →
      ∃ tr, loadCaptureInfo ci bytes (fun _ => false) = some tr ∧
        tr.getLast? = some Callback.onCaptureComplete ∧
        ∀ s, Callback.onCaptureFailed s ∉ tr) ∧
    (∀ (required : String) (versionOf : List Nat → String)
        (captureInfoOf : List Nat → CaptureInfo) (fileName : String)
        (bytes : List Nat) (flag : Nat → Bool), readMessage bytes = none →
      load required versionOf captureInfoOf fileName bytes flag =
        some [Callback.onCaptureFailed (parseErrorMessage fileName)]) ∧
    (∀ fileName : String,
      fileName.toList <:+: (parseErrorMessage fileName).toList ∧
      "previous Orbit version".toList <:+: (parseErrorMessage fileName).toList) := by
  refine ⟨?_, ?_, ?_⟩
  · intro ci bytes hm
    refine ⟨_, loadCaptureInfo_false ci bytes hm, getLast?_cons_concat _ _ _, ?_⟩
    intro s hs
    rcases List.mem_cons.mp hs with h | h
    · simp at h
    · rcases List.mem_append.mp h with h | h
      · have := units_nonterminal ci bytes _ h
        simp [Callback.isTerminal] at this
      · simp at h
  · intro required versionOf captureInfoOf fileName bytes flag h
    simp only [load, h]
  · intro fileName
    constructor
    · refine ⟨"Error parsing the capture from \"".toList,
        ("\".\nNote: If the capture was taken with a previous Orbit version, " ++
          "it could be incompatible. Please check release notes for more information.").toList,
        ?_⟩
      simp [parseErrorMessage, toList_append, List.append_assoc]
    · have hx : "previous Orbit version".toList <:+:
          ("\".\nNote: If the capture was taken with a previous Orbit version, " ++
            "it could be incompatible. Please check release notes for more information.").toList := by
        decide
      refine hx.trans ⟨("Error parsing the capture from \"" ++ fileName).toList, [], ?_⟩
      simp [parseErrorMessage, toList_append, List.append_assoc]

set_option maxRecDepth 8000 in
/-- Witness for the amended C2: the empty stream. -/
theorem c2_streaming_end_amended_witness :
    modulesOk emptyCaptureInfo = true ∧
    (∃ tr, loadCaptureInfo emptyCaptureInfo [] (fun _ => false) = some tr ∧
      tr.getLast? = some Callback.onCaptureComplete ∧
      ∀ s, Callback.onCaptureFailed s ∉ tr) ∧
    readMessage [] = none ∧
    load "1.52" bytesAsString (fun _ => emptyCaptureInfo) "capture.orbit" [] (fun _ => false) =
      some [Callback.onCaptureFailed (parseErrorMessage "capture.orbit")] :=
  ⟨by decide, c2_streaming_end_amended.1 emptyCaptureInfo [] (by decide), by decide,
    c2_streaming_end_amended.2.1 "1.52" bytesAsString (fun _ => emptyCaptureInfo)
      "capture.orbit" [] (fun _ => false) (by decide)⟩

set_option maxRecDepth 8000 in
/-- C2 (counterexample): a stream with a valid header (version `1.52`,
the supported one here) and empty metadata, followed by a malformed
message — length prefix `5` with only 2 payload bytes — ends with
`OnCaptureComplete`; the claimed `OnCaptureFailed` never occurs. -/
theorem c2_streaming_malformed_counterexample :
    readLittleEndian32 [5, 0, 0, 0, 1, 2] = some (5, [1, 2]) ∧
    readMessage [5, 0, 0, 0, 1, 2] = none ∧
    load "1.52" bytesAsString (fun _ => emptyCaptureInfo) "capture.orbit"
        [4, 0, 0, 0, 49, 46, 53, 50, 0, 0, 0, 0, 5, 0, 0, 0, 1, 2] (fun _ => false) =
      some [Callback.onCaptureStarted, Callback.onCaptureComplete] ∧
    ∀ s, Callback.onCaptureFailed s ∉
      [Callback.onCaptureStarted, Callback.onCaptureComplete] := by
  refine ⟨by decide, by decide, by decide, ?_⟩
  intro s
  simp

/-- C1 (amended): a stream whose header message carries a nonempty
version different from the supported one (`kRequiredCaptureVersion`,
modelled by the parameter `required`) makes `Load` call
`OnCaptureFailed` exactly once and deliver no other callback; the error
message names the file name and the file's version — the supported
version is not part of the message (it is built from the file name and
the file's version only, independently of `required`). -/
theorem c1_version_mismatch_amended (required : String) (versionOf : List Nat → String)
    (captureInfoOf : List Nat → CaptureInfo) (fileName : String) (bytes : List Nat)
    (flag : Nat → Bool) (payload rest : List Nat)
    (h1 : readMessage bytes = some (payload, rest))
    (h2 : versionOf payload ≠ "")
    (h3 : versionOf payload ≠ required) :
    load required versionOf captureInfoOf fileName bytes flag =
      some [Callback.onCaptureFailed
        (incompatibleVersionMessage fileName (versionOf payload))] ∧
    (versionOf payload).toList <:+:
      (incompatibleVersionMessage fileName (versionOf payload)).toList ∧
    fileName.toList <:+:
      (incompatibleVersionMessage fileName (versionOf payload)).toList := by
  refine ⟨?_, ?_, ?_⟩
  · simp only [load, h1, if_neg h2, ne_eq, h3, not_false_eq_true, if_true]
  · refine ⟨("The format of capture \"" ++ fileName ++
        "\" is no longer supported but could be opened with Orbit version ").toList,
      ".".toList, ?_⟩
    simp [incompatibleVersionMessage, toList_append, List.append_assoc]
  · refine ⟨"The format of capture \"".toList,
      ("\" is no longer supported but could be opened with Orbit version " ++
        versionOf payload ++ ".").toList, ?_⟩
    simp [incompatibleVersionMessage, toList_append, List.append_assoc]

set_option maxRecDepth 8000 in
/-- Witness for the amended C1 at a concrete mismatching stream. -/
theorem c1_version_mismatch_amended_witness :
    readMessage [3, 0, 0, 0, 48, 46, 57] = some ([48, 46, 57], []) ∧
    bytesAsString [48, 46, 57] ≠ "" ∧
    bytesAsString [48, 46, 57] ≠ "1.52" ∧
    (load "1.52" bytesAsString (fun _ => emptyCaptureInfo) "capture.orbit"
        [3, 0, 0, 0, 48, 46, 57] (fun _ => false) =
      some [Callback.onCaptureFailed
        (incompatibleVersionMessage "capture.orbit" (bytesAsString [48, 46, 57]))] ∧
    (bytesAsString [48, 46, 57]).toList <:+:
      (incompatibleVersionMessage "capture.orbit" (bytesAsString [48, 46, 57])).toList ∧
    "capture.orbit".toList <:+:
      (incompatibleVersionMessage "capture.orbit" (bytesAsString [48, 46, 57])).toList) :=
  ⟨by decide, by decide, by decide,
    c1_version_mismatch_amended "1.52" bytesAsString (fun _ => emptyCaptureInfo)
      "capture.orbit" [3, 0, 0, 0, 48, 46, 57] (fun _ => false) [48, 46, 57] []
      (by decide) (by decide) (by decide)⟩

set_option maxRecDepth 8000 in
/-- C1 (counterexample): with the supported version modelled as `1.52`,
a header declaring version `0.9` yields exactly one `OnCaptureFailed`
whose message does not contain the supported version anywhere — the
message names only the file name and the file's version, contradicting
"naming both the file's version and the supported version". -/
theorem c1_version_mismatch_counterexample :
    load "1.52" bytesAsString (fun _ => emptyCaptureInfo) "capture.orbit"
        [3, 0, 0, 0, 48, 46, 57] (fun _ => false) =
      some [Callback.onCaptureFailed (incompatibleVersionMessage "capture.orbit" "0.9")] ∧
    ¬ ("1.52".toList <:+: (incompatibleVersionMessage "capture.orbit" "0.9").toList) := by
  constructor
  · decide
  · decide

/-! ## Lemmas about the capture session (Capture.cpp) -/

theorem alInsert_all_zero {m : List (Nat × Nat)} {k : Nat}
    (h : ∀ p ∈ m, p.2 = 0) : ∀ p ∈ alInsert m k 0, p.2 = 0 := by
  induction m with
  | nil =>
    intro p hp
    simp only [alInsert, List.mem_singleton] at hp
    rw [hp]
  | cons q m ih =>
    intro p hp
    obtain ⟨k0, v0⟩ := q
    simp only [alInsert] at hp
    split_ifs at hp
    · rcases List.mem_cons.mp hp with rfl | hp
      · rfl
      · exact h p (List.mem_cons_of_mem _ hp)
    · rcases List.mem_cons.mp hp with rfl | hp
      · exact h (k0, v0) (List.mem_cons_self _ _)
      · exact ih (fun q hq => h q (List.mem_cons_of_mem _ hq)) p hp

/-- The selected-function loop of `SendFunctionHooks` only touches the
per-type buckets, the selected-functions map and the (zeroed) function
count map. -/
theorem recordFold_shape (sel : List FunctionEntry) :
    ∀ s : CaptureState, ∃ A B C,
      sel.foldl recordFunctionHook s =
        { s with selectedAddressesByType := A, selectedFunctionsMap := B,
                 functionCountMap := C } ∧
      ((∀ p ∈ s.functionCountMap, p.2 = 0) → ∀ p ∈ C, p.2 = 0) := by
  induction sel with
  | nil =>
    intro s
    exact ⟨s.selectedAddressesByType, s.selectedFunctionsMap, s.functionCountMap,
      rfl, fun h => h⟩
  | cons f fs ih =>
    intro s
    obtain ⟨A, B, C, hEq, hz⟩ := ih (recordFunctionHook s f)
    refine ⟨A, B, C, ?_, ?_⟩
    · rw [List.foldl_cons, hEq]
      rfl
    · intro h
      exact hz (fun p hp => alInsert_all_zero h p hp)

/-- The hook-message loop of `SendFunctionHooks` only appends wire
messages. -/
theorem sendHookMessages_shape (st : CaptureState) :
    ∃ snt, sendHookMessages st = { st with sent := snt } := by
  suffices H : ∀ (l : List Nat) (s : CaptureState), ∃ snt,
      l.foldl (fun s i =>
        if s.selectedAddressesByType.getD i [] ≠ [] then
          { s with sent := s.sent ++ [Msg.functionHookOfType i] }
        else s) s = { s with sent := snt } by
    exact H (List.range 10) st
  intro l
  induction l with
  | nil => exact fun s => ⟨s.sent, rfl⟩
  | cons i l ih =>
    intro s
    rw [List.foldl_cons]
    by_cases hc : s.selectedAddressesByType.getD i [] ≠ []
    · obtain ⟨snt, hEq⟩ := ih { s with sent := s.sent ++ [Msg.functionHookOfType i] }
      rw [if_pos hc, hEq]
      exact ⟨snt, rfl⟩
    · obtain ⟨snt, hEq⟩ := ih s
      rw [if_neg hc, hEq]
      exact ⟨snt, rfl⟩

/-- `SendFunctionHooks` only touches the selection bookkeeping, the
(zeroed) function count map and the wire trace. -/
theorem sendFunctionHooks_shape (s : CaptureState) :
    ∃ A B C D sel snt, sendFunctionHooks s =
      { s with selectedAddressesByType := A, selectedFunctionsMap := B,
               functionCountMap := C, visibleFunctionsMap := D,
               selectedFunctions := sel, sent := snt } ∧
      ((∀ p ∈ s.functionCountMap, p.2 = 0) → ∀ p ∈ C, p.2 = 0) := by
  obtain ⟨A, B, C, hrec, hz⟩ :=
    recordFold_shape
      (getSelectedFunctions { s with selectedAddressesByType := List.replicate 10 [],
                                     sent := s.sent ++ [Msg.clearArgTracking] })
      { s with selectedAddressesByType := List.replicate 10 [],
               sent := s.sent ++ [Msg.clearArgTracking],
               selectedFunctions :=
                 getSelectedFunctions
                   { s with selectedAddressesByType := List.replicate 10 [],
                            sent := s.sent ++ [Msg.clearArgTracking] } }
  have h1 : sendFunctionHooks s = sendHookMessages
      (if s.targetProcessIsRemote = true then
        { s with selectedAddressesByType := A, selectedFunctionsMap := B,
                 functionCountMap := C, visibleFunctionsMap := B,
                 selectedFunctions :=
                   getSelectedFunctions
                     { s with selectedAddressesByType := List.replicate 10 [],
                              sent := s.sent ++ [Msg.clearArgTracking] },
                 sent := s.sent ++ [Msg.clearArgTracking] ++
                   [Msg.remoteSelectedFunctionsMap, Msg.startCaptureMsg] }
      else
        { s with selectedAddressesByType := A, selectedFunctionsMap := B,
                 functionCountMap := C, visibleFunctionsMap := B,
                 selectedFunctions :=
                   getSelectedFunctions
                     { s with selectedAddressesByType := List.replicate 10 [],
                              sent := s.sent ++ [Msg.clearArgTracking] },
                 sent := s.sent ++ [Msg.clearArgTracking] }) := by
    simp only [sendFunctionHooks]
    rw [hrec]
    simp only [isRemote]
  by_cases hrem : s.targetProcessIsRemote = true
  · rw [if_pos hrem] at h1
    obtain ⟨snt, hmsg⟩ := sendHookMessages_shape
      { s with selectedAddressesByType := A, selectedFunctionsMap := B,
               functionCountMap := C, visibleFunctionsMap := B,
               selectedFunctions :=
                 getSelectedFunctions
                   { s with selectedAddressesByType := List.replicate 10 [],
                            sent := s.sent ++ [Msg.clearArgTracking] },
               sent := s.sent ++ [Msg.clearArgTracking] ++
                 [Msg.remoteSelectedFunctionsMap, Msg.startCaptureMsg] }
    exact ⟨A, B, C, B,
      getSelectedFunctions { s with selectedAddressesByType := List.replicate 10 [],
                                    sent := s.sent ++ [Msg.clearArgTracking] },
      snt, h1.trans (hmsg.trans rfl), fun h => hz (fun p hp => h p hp)⟩
  · rw [if_neg hrem] at h1
    obtain ⟨snt, hmsg⟩ := sendHookMessages_shape
      { s with selectedAddressesByType := A, selectedFunctionsMap := B,
               functionCountMap := C, visibleFunctionsMap := B,
               selectedFunctions :=
                 getSelectedFunctions
                   { s with selectedAddressesByType := List.replicate 10 [],
                            sent := s.sent ++ [Msg.clearArgTracking] },
               sent := s.sent ++ [Msg.clearArgTracking] }
    exact ⟨A, B, C, B,
      getSelectedFunctions { s with selectedAddressesByType := List.replicate 10 [],
                                    sent := s.sent ++ [Msg.clearArgTracking] },
      snt, h1.trans (hmsg.trans rfl), fun h => hz (fun p hp => h p hp)⟩

/-- The tail of `StartCapture` only touches the profiler flag and the
UI trace. -/
theorem finishStartCapture_shape (s : CaptureState) :
    ∃ pc u, finishStartCapture s = { s with profilerIsCapturing := pc, uiSent := u } := by
  simp only [finishStartCapture]
  split_ifs <;> exact ⟨_, _, rfl⟩

/-- C7: for every state whose target process has an empty name,
`Capture::StartCapture` returns the failure result carrying the
human-readable "No process selected" message (a recoverable error, not a
fatal one), and the entire capture state — timers, counters,
selected-function maps, session id — is returned unmodified. -/
theorem c7_start_capture_empty_name (st : CaptureState)
    (h : st.targetProcessName = "") :
    startCapture st =
      (Except.error "No process selected. Please choose a target process for the capture.",
        st) := by
  simp [startCapture, h]

theorem c7_start_capture_empty_name_witness :
    startCapture initialCaptureState =
      (Except.error "No process selected. Please choose a target process for the capture.",
        initialCaptureState) :=
  c7_start_capture_empty_name initialCaptureState rfl

/-- C8: every successful `Capture::StartCapture` strictly increases the
session id and resets the per-session state: in the returned state the
callstack table, address-info map, address-to-function-name map and
zone-name table are empty, every function-count entry is zero (the
count map is emptied by `ClearCaptureData` and then re-seeded with
count 0 for the freshly selected functions by `SendFunctionHooks`), the
per-session event counters are zero, the selected text box is cleared,
and recording is on — no data from a previous session remains. -/
theorem c8_new_session_resets_state (st st2 : CaptureState)
    (h : startCapture st = (Except.ok (), st2)) :
    st.sessionId < st2.sessionId ∧
    st2.callstacks = [] ∧
    st2.addressInfos = [] ∧
    st2.addressToFunctionName = [] ∧
    st2.zoneNames = [] ∧
    (∀ p ∈ st2.functionCountMap, p.2 = 0) ∧
    st2.selectedTextBox = none ∧
    st2.selectedThreadId = 0 ∧
    st2.numProfileEvents = 0 ∧
    st2.hasContextSwitches = false ∧
    st2.numLinuxEvents = 0 ∧
    st2.numContextSwitches = 0 ∧
    st2.isRecording = true := by
  by_cases hname : st.targetProcessName = ""
  · simp [startCapture, hname] at h
  · obtain ⟨A, B, C, D, sel, snt, hsfh, hz⟩ :=
      sendFunctionHooks_shape (clearCaptureData
        { st with captureTimerStarted := true, injected := true,
                  sessionId := st.sessionId + 1,
                  sent := st.sent ++ [Msg.newSession], isRecording := true })
    obtain ⟨pc, u, hfin⟩ := finishStartCapture_shape
      (sendFunctionHooks (clearCaptureData
        { st with captureTimerStarted := true, injected := true,
                  sessionId := st.sessionId + 1,
                  sent := st.sent ++ [Msg.newSession], isRecording := true }))
    simp only [startCapture] at h
    rw [if_neg hname, Prod.mk.injEq] at h
    obtain ⟨-, hst2⟩ := h
    subst hst2
    rw [hfin, hsfh]
    exact ⟨Nat.lt_succ_self _, rfl, rfl, rfl, rfl,
      hz (fun p hp => by simp [clearCaptureData] at hp),
      rfl, rfl, rfl, rfl, rfl, rfl, rfl⟩

theorem c8_new_session_resets_state_witness :
    ({ initialCaptureState with targetProcessName := "p" } : CaptureState).sessionId <
      (startCapture { initialCaptureState with targetProcessName := "p" }).2.sessionId ∧
    (startCapture { initialCaptureState with targetProcessName := "p" }).2.callstacks = [] ∧
    (startCapture { initialCaptureState with targetProcessName := "p" }).2.addressInfos = [] ∧
    (startCapture { initialCaptureState with
      targetProcessName := "p" }).2.addressToFunctionName = [] ∧
    (startCapture { initialCaptureState with targetProcessName := "p" }).2.zoneNames = [] ∧
    (∀ p ∈ (startCapture { initialCaptureState with
      targetProcessName := "p" }).2.functionCountMap, p.2 = 0) ∧
    (startCapture { initialCaptureState with targetProcessName := "p" }).2.selectedTextBox
      = none ∧
    (startCapture { initialCaptureState with targetProcessName := "p" }).2.selectedThreadId
      = 0 ∧
    (startCapture { initialCaptureState with targetProcessName := "p" }).2.numProfileEvents
      = 0 ∧
    (startCapture { initialCaptureState with targetProcessName := "p" }).2.hasContextSwitches
      = false ∧
    (startCapture { initialCaptureState with targetProcessName := "p" }).2.numLinuxEvents
      = 0 ∧
    (startCapture { initialCaptureState with targetProcessName := "p" }).2.numContextSwitches
      = 0 ∧
    (startCapture { initialCaptureState with targetProcessName := "p" }).2.isRecording
      = true :=
  c8_new_session_resets_state { initialCaptureState with targetProcessName := "p" }
    (startCapture { initialCaptureState with targetProcessName := "p" }).2 rfl

/-- C9 (amended): `Capture::StopCapture` always completes (it returns
void and raises no error), and its effect is characterised by whether
the target is remote and whether the session is still marked injected:
it is a strict no-op exactly on a non-remote, non-injected state; on
any injected state — recording or not — it re-sends the stop command
and clears the recording flag (so an idle-but-injected state is NOT
left unchanged); on a remote state it additionally stops the sampling
profiler and processes its samples. -/
theorem c9_stop_capture_amended (st : CaptureState) :
    (isRemote st = false → st.injected = false → stopCapture st = st) ∧
    (isRemote st = false → st.injected = true →
      stopCapture st =
        { st with sent := st.sent ++ [Msg.stopCaptureMsg], isRecording := false }) ∧
    (isRemote st = true → st.injected = false →
      stopCapture st =
        { st with profilerIsCapturing := false,
                  profilerProcessedRuns := st.profilerProcessedRuns + 1 }) ∧
    (isRemote st = true → st.injected = true →
      stopCapture st =
        { st with profilerIsCapturing := false,
                  profilerProcessedRuns := st.profilerProcessedRuns + 1,
                  sent := st.sent ++ [Msg.stopCaptureMsg], isRecording := false }) := by
  refine ⟨?_, ?_, ?_, ?_⟩ <;> intro h1 h2 <;>
    simp [stopCapture, isTrackingEvents, h1, h2]

theorem c9_stop_capture_amended_witness :
    stopCapture { initialCaptureState with injected := true } =
      { initialCaptureState with injected := true, sent := [Msg.stopCaptureMsg] } :=
  ((c9_stop_capture_amended { initialCaptureState with injected := true }).2.1
    rfl rfl).trans (by decide)

/-- C9 counterexample: a state that is not recording but is still marked
injected is not left unchanged by `StopCapture`: the stop command is
sent again, so "calling it when not recording is a no-op" fails. -/
theorem c9_not_recording_counterexample :
    isCapturing { initialCaptureState with injected := true } = false ∧
    stopCapture { initialCaptureState with injected := true } ≠
      { initialCaptureState with injected := true } ∧
    (stopCapture { initialCaptureState with injected := true }).sent =
      [Msg.stopCaptureMsg] := by
  decide

end Orbit
